import Mathlib

/- Verification development for the federal credit supplement pipeline:
   the cell normalizer and hierarchy extractors of `parse_table2.py` and
   `parse_table9.py`, the cross-year program identity registry of
   `program_matcher.py` (canonical keys, alias resolution, fuzzy
   reconciliation) and the sector classifier of `sector_taxonomy.py`.

   Conventions of the shallow embedding:
   * Python strings are Lean `String`s; character-level operations are defined
     on `String.data` (`List Char`).  Unicode-sensitive Python operations
     (`str.lower`, `str.strip`, the regex class `\s`, `str.isupper`,
     `float()` digit parsing) are modelled by their ASCII behaviour, which
     covers the repository's data.
   * Python dicts are insertion-ordered association lists (`List (κ × α)`);
     `dset` mirrors `d[k] = v` (update in place, append when absent), `ddel`
     mirrors `del d[k]`, `dget` mirrors `d.get(k)`.
   * Python floats are modelled exactly: finite values as rationals (`ℚ`),
     plus infinities and NaN; IEEE-754 rounding is abstracted away.
   * Optional string arguments (`None`) are modelled as `""`: the code
     immediately collapses `None` to `""` through `x or ""`.
-/

namespace FedCredit

/-! Insertion-ordered dictionary operations on association lists,
    mirroring Python `dict` semantics. -/

def dget {κ α : Type} [DecidableEq κ] (d : List (κ × α)) (k : κ) : Option α :=
  match d with
  | [] => none
  | (k', v) :: rest => if k' = k then some v else dget rest k

def dmem {κ α : Type} [DecidableEq κ] (d : List (κ × α)) (k : κ) : Bool :=
  (dget d k).isSome

def dset {κ α : Type} [DecidableEq κ] (d : List (κ × α)) (k : κ) (v : α) :
    List (κ × α) :=
  match d with
  | [] => [(k, v)]
  | (k', v') :: rest =>
    if k' = k then (k', v) :: rest else (k', v') :: dset rest k v

def ddel {κ α : Type} [DecidableEq κ] (d : List (κ × α)) (k : κ) :
    List (κ × α) :=
  match d with
  | [] => []
  | (k', v') :: rest => if k' = k then rest else (k', v') :: ddel rest k

/-- Keys of an association list, in order. -/
def dkeys {κ α : Type} (d : List (κ × α)) : List κ := d.map Prod.fst

/-! Character-level primitives shared by the parsers and the normalizers. -/

/-- ASCII whitespace, the ASCII fragment of Python's `str.strip()` /
    regex `\s` character class. -/
def isPyWs (c : Char) : Bool :=
  c = ' ' || c = '\t' || c = '\n' || c = '\r' || c = '\x0b' || c = '\x0c'

def isDigitCh (c : Char) : Bool := '0' ≤ c && c ≤ '9'

def isLowerAl (c : Char) : Bool := 'a' ≤ c && c ≤ 'z'

/-- Remove trailing characters satisfying `p` (Python `str.rstrip`). -/
def rstripP (p : Char → Bool) : List Char → List Char
  | [] => []
  | c :: cs =>
    match rstripP p cs with
    | [] => if p c then [] else [c]
    | rest => c :: rest

/-- Python `str.strip()` on the ASCII whitespace set. -/
def stripL (l : List Char) : List Char := rstripP isPyWs (l.dropWhile isPyWs)

def pyStrip (s : String) : String := ⟨stripL s.data⟩

def lowerL (l : List Char) : List Char := l.map Char.toLower

/-- Replace each maximal run of characters satisfying `p` by the single
    character `r` (regex `[...]+` substitution). -/
def collapseRunsAux (p : Char → Bool) (r : Char) (inRun : Bool) :
    List Char → List Char
  | [] => []
  | c :: cs =>
    if p c then
      if inRun then collapseRunsAux p r true cs
      else r :: collapseRunsAux p r true cs
    else c :: collapseRunsAux p r false cs

def collapseRuns (p : Char → Bool) (r : Char) (l : List Char) : List Char :=
  collapseRunsAux p r false l

/-- Dash-family characters of `_DASH_RE`:
    `[‐-―−﹘﹣－-]`. -/
def isDashChar (c : Char) : Bool :=
  (0x2010 ≤ c.toNat && c.toNat ≤ 0x2015) || c.toNat = 0x2212 ||
    c.toNat = 0xfe58 || c.toNat = 0xfe63 || c.toNat = 0xff0d || c = '-'

/-- Substring containment, Python's `pat in hay` for strings.
    The empty pattern is contained in everything. -/
def isInfixCh (hay pat : List Char) : Bool :=
  match hay with
  | [] => pat.isEmpty
  | _ :: rest => pat.isPrefixOf hay || isInfixCh rest pat

def containsSub (hay pat : String) : Bool := isInfixCh hay.data pat.data

/-! Normalization functions of `scripts/program_matcher.py`. -/

/-- Embedding of `_norm`: lowercase, collapse dash runs to a hyphen,
    collapse whitespace runs, strip. -/
def _norm (s : String) : String :=
  if s = "" then ""
  else
    let l1 := collapseRuns isDashChar '-' s.data
    let l2 := collapseRuns isPyWs ' ' l1
    ⟨stripL (lowerL l2)⟩

/-- Embedding of `_FOOTNOTE_RE.sub("", ·)` with `_FOOTNOTE_RE = \s*\d+\s*$`:
    remove a trailing run of digits together with surrounding whitespace. -/
def footnoteSubL (l : List Char) : List Char :=
  match l.reverse.dropWhile isPyWs with
  | c :: cs =>
    if isDigitCh c then
      (((c :: cs).dropWhile isDigitCh).dropWhile isPyWs).reverse
    else l
  | [] => l

def footnoteSub (s : String) : String := ⟨footnoteSubL s.data⟩

/-- Python `"|".join`. -/
def joinPipe : List String → String
  | [] => ""
  | [s] => s
  | s :: rest => s ++ "|" ++ joinPipe rest

/-- Embedding of `normalize_program_key`: pipe-joined normalized components,
    with the footnote suffix stripped from the program component only.
    A Python `None` component arrives here as `""`. -/
def normalize_program_key (agency bureau account program : String) : String :=
  joinPipe [_norm agency, _norm bureau, _norm account,
            _norm (footnoteSub program)]

/-- The fixed alias table `PROGRAM_ALIASES` of `program_matcher.py`. -/
def PROGRAM_ALIASES : List (String × String) :=
  [("overseas private investment corporation",
    "united states international development finance corporation"),
   ("opic", "dfc"),
   ("office of postsecondary education", "office of federal student aid"),
   ("federal family education loan", "federal direct student loan"),
   ("stafford loans", "stafford"),
   ("stafford loan", "stafford"),
   ("subsidized stafford", "stafford"),
   ("fha-mutual mortgage insurance", "fha-mutual mortgage"),
   ("mutual mortgage insurance", "fha-mutual mortgage"),
   ("export-import bank direct loans", "export-import direct"),
   ("ex-im direct loans", "export-import direct"),
   ("7(a) general business loans", "7(a) loans"),
   ("general business loan guarantee", "7(a) loans"),
   ("section 504 certified development", "504 certified development company"),
   ("504 loans", "504 certified development company"),
   ("farm ownership-direct", "farm ownership"),
   ("farm operating-direct", "farm operating"),
   ("farm ownership loans-direct", "farm ownership"),
   ("farm operating loans-direct", "farm operating"),
   ("single family housing direct", "section 502"),
   ("single family housing guaranteed", "section 502 unsubsidized guaranteed"),
   ("multi-family housing direct", "section 515"),
   ("multi-family housing guaranteed", "section 538")]

/-- Embedding of `_ALIAS_MAP = {_norm(k): _norm(v) for k, v in
    PROGRAM_ALIASES.items()}` (dict comprehension: later duplicate keys
    overwrite earlier ones). -/
def _ALIAS_MAP : List (String × String) :=
  PROGRAM_ALIASES.foldl (fun d kv => dset d (_norm kv.1) (_norm kv.2)) []

/-- Python `key.split("|")` (single-character separator). -/
def splitPipeAux (acc : List Char) : List Char → List String
  | [] => [⟨acc.reverse⟩]
  | c :: cs =>
    if c = '|' then ⟨acc.reverse⟩ :: splitPipeAux [] cs
    else splitPipeAux (c :: acc) cs

def splitPipe (s : String) : List String := splitPipeAux [] s.data

/-- Embedding of `_apply_aliases`: on a four-part key, replace the program
    part (index 3) and the bureau part (index 1) through `_ALIAS_MAP`. -/
def _apply_aliases (key : String) : String :=
  match splitPipe key with
  | [a0, b0, c0, p0] =>
    let p1 := match dget _ALIAS_MAP p0 with | some v => v | none => p0
    let b1 := match dget _ALIAS_MAP b0 with | some v => v | none => b0
    joinPipe [a0, b1, c0, p1]
  | _ => key

/-! Embedding of `_normalize_fuzzy`. -/

/-- After an opening parenthesis: consume the lazy body `.*?` (no newline)
    up to the first closing parenthesis, then trailing whitespace; `none`
    when the regex `\s*\(.*?\)\s*` cannot match here. -/
def parenBody : List Char → Option (List Char)
  | [] => none
  | c :: cs =>
    if c = ')' then some (cs.dropWhile isPyWs)
    else if c = '\n' then none
    else parenBody cs

def tryParen (l : List Char) : Option (List Char) :=
  match l.dropWhile isPyWs with
  | '(' :: cs => parenBody cs
  | _ => none

/-- Embedding of `_PAREN_RE.sub(" ", ·)` with `_PAREN_RE = \s*\(.*?\)\s*`:
    left-to-right scan replacing each match by a single space.  A successful
    match consumes at least two characters, so fuel `l.length` suffices and
    the fuel case never fires. -/
def parenSubAux : Nat → List Char → List Char
  | 0, l => l
  | _ + 1, [] => []
  | fuel + 1, c :: cs =>
    if isPyWs c || c = '(' then
      match tryParen (c :: cs) with
      | some rest => ' ' :: parenSubAux fuel rest
      | none => c :: parenSubAux fuel cs
    else c :: parenSubAux fuel cs

def parenSub (l : List Char) : List Char := parenSubAux l.length l

/-- Embedding of `_NONALNUM_RE.sub(" ", ·)` with `_NONALNUM_RE =
    [^a-z0-9 ]`. -/
def nonalnumSub (l : List Char) : List Char :=
  l.map (fun c => if isLowerAl c || isDigitCh c || c = ' ' then c else ' ')

def splitCharAux (sep : Char) (acc : List Char) : List Char → List (List Char)
  | [] => [acc.reverse]
  | c :: cs =>
    if c = sep then acc.reverse :: splitCharAux sep [] cs
    else splitCharAux sep (c :: acc) cs

def joinChar (sep : Char) : List (List Char) → List Char
  | [] => []
  | [w] => w
  | w :: ws => w ++ sep :: joinChar sep ws

/-- Embedding of `re.sub(r"\bXs?\b", "X", ·)` for a word `X`, at the point
    of `_normalize_fuzzy` where the string only contains `[a-z0-9 ]`: word
    boundaries are exactly the spaces and the string's ends, so the
    substitution maps each space-separated token equal to `X ++ "s"`
    (or `X`, a no-op) to `X`. -/
def pluralSub (sing : List Char) (l : List Char) : List Char :=
  joinChar ' '
    ((splitCharAux ' ' [] l).map
      (fun w => if w = sing ++ ['s'] then sing else w))

/-- Embedding of `re.sub(r"\s+\d+$", "", ·)`: remove a trailing digit run
    preceded by at least one whitespace character. -/
def trailNumStripL (l : List Char) : List Char :=
  match l.reverse with
  | c :: _ =>
    if isDigitCh c then
      match l.reverse.dropWhile isDigitCh with
      | d :: ds =>
        if isPyWs d then ((d :: ds).dropWhile isPyWs).reverse else l
      | [] => l
    else l
  | [] => l

/-- Embedding of `_normalize_fuzzy`: aggressive normalization for fuzzy
    cross-year matching. -/
def _normalize_fuzzy (name : String) : String :=
  if name = "" then ""
  else
    let n1 := lowerL name.data
    let n2 := collapseRuns isDashChar ' ' n1
    let n3 := parenSub n2
    let n4 := nonalnumSub n3
    let n5 := pluralSub "loan".data n4
    let n6 := pluralSub "program".data n5
    let n7 := pluralSub "guarantee".data n6
    let n8 := trailNumStripL n7
    ⟨stripL (collapseRuns isPyWs ' ' n8)⟩

/-! Rational helpers.  The library's arithmetic on `ℚ` does not reduce
    inside the kernel, so the embedding computes with `Rat.divInt` and the
    `num`/`den` projections, which do; the lemmas `ratMul_eq`, `ratSub_eq`,
    `ratAbs_eq` and `ratLeB_iff` below prove these helpers equal to the
    standard operations. -/

def ratMul (a b : ℚ) : ℚ := Rat.divInt (a.num * b.num) ((a.den : ℤ) * b.den)

def ratSub (a b : ℚ) : ℚ :=
  Rat.divInt (a.num * b.den - b.num * a.den) ((a.den : ℤ) * b.den)

def ratAbs (a : ℚ) : ℚ := Rat.divInt ((a.num.natAbs : ℤ)) ((a.den : ℤ))

def ratLeB (a b : ℚ) : Bool := decide (a.num * (b.den : ℤ) ≤ b.num * (a.den : ℤ))

/-! Embedding of `ProgramRegistry` from `scripts/program_matcher.py`. -/

/-- Python string comparison: lexicographic on code points. -/
def strLeL : List Char → List Char → Bool
  | [], _ => true
  | _ :: _, [] => false
  | a :: l1, b :: l2 => if a = b then strLeL l1 l2 else decide (a.toNat < b.toNat)

def strLe (a b : String) : Bool := strLeL a.data b.data

/-- Embedding of the id format `f"P{n:03d}"`: zero-pad to at least three
    digits. -/
def pad3 (n : Nat) : String :=
  if n < 10 then "00" ++ toString n
  else if n < 100 then "0" ++ toString n
  else toString n

def pidString (n : Nat) : String := "P" ++ pad3 n

/-- Metadata dict stored per program id (`self._programs[pid]`).  The
    `program_id` key of the Python dict is the association-list key and is
    not duplicated here. -/
structure ProgMeta where
  canonical_name : String
  agency : String
  bureau : String
  account : String
  canonical_key : String
  key_variants : List String
  name_variants : List String
  budget_years_seen : List Int
  name_year_map : List (String × Int)
deriving DecidableEq, Repr

structure ProgramRegistry where
  next_id : Nat
  key_to_id : List (String × String)
  programs : List (String × ProgMeta)
deriving DecidableEq, Repr

def emptyRegistry : ProgramRegistry := ⟨1, [], []⟩

/-- Embedding of `ProgramRegistry.register`.  A Python `budget_year=None`
    is `none`; the code's truthiness test `if budget_year` also rejects
    the year `0`. -/
def register (reg : ProgramRegistry) (agency bureau account program : String)
    (budget_year : Option Int) : String × ProgramRegistry :=
  let raw_key := normalize_program_key agency bureau account program
  let resolved_key := _apply_aliases raw_key
  match dget reg.key_to_id resolved_key with
  | some pid =>
    match dget reg.programs pid with
    | some meta =>
      let m1 := if raw_key ∈ meta.key_variants then meta
                else { meta with key_variants := meta.key_variants ++ [raw_key] }
      let m2 := if program ≠ "" ∧ program ∉ m1.name_variants then
                  { m1 with name_variants := m1.name_variants ++ [program] }
                else m1
      let m3 := match budget_year with
                | some y =>
                  if y ≠ 0 ∧ y ∉ m2.budget_years_seen then
                    { m2 with budget_years_seen := m2.budget_years_seen ++ [y] }
                  else m2
                | none => m2
      let m4 := match budget_year with
                | some y =>
                  if program ≠ "" ∧ y ≠ 0 then
                    match dget m3.name_year_map program with
                    | none => { m3 with name_year_map := dset m3.name_year_map program y }
                    | some old =>
                      if old < y then { m3 with name_year_map := dset m3.name_year_map program y }
                      else m3
                  else m3
                | none => m3
      (pid, { reg with programs := dset reg.programs pid m4 })
    | none => (pid, reg)  -- unreachable: Python would raise `KeyError`; the
                          -- registry invariant (claim C1) rules it out
  | none =>
    match (if raw_key ≠ resolved_key then dget reg.key_to_id raw_key else none) with
    | some pid =>
      -- raw key already known: also map the resolved key to the same id
      let reg1 := { reg with key_to_id := dset reg.key_to_id resolved_key pid }
      match dget reg1.programs pid with
      | some meta =>
        let m1 := match budget_year with
                  | some y =>
                    if y ≠ 0 ∧ y ∉ meta.budget_years_seen then
                      { meta with budget_years_seen := meta.budget_years_seen ++ [y] }
                    else meta
                  | none => meta
        (pid, { reg1 with programs := dset reg1.programs pid m1 })
      | none => (pid, reg1)  -- unreachable, as above
    | none =>
      -- new program
      let pid := pidString reg.next_id
      let meta : ProgMeta :=
        { canonical_name := program
          agency := agency
          bureau := bureau
          account := account
          canonical_key := resolved_key
          key_variants := if raw_key ≠ resolved_key then [raw_key] else [resolved_key]
          name_variants := if program ≠ "" then [program] else []
          budget_years_seen := match budget_year with
                               | some y => if y ≠ 0 then [y] else []
                               | none => []
          name_year_map := match budget_year with
                           | some y => if program ≠ "" ∧ y ≠ 0 then [(program, y)] else []
                           | none => [] }
      (pid, { next_id := reg.next_id + 1
              key_to_id := dset (dset reg.key_to_id resolved_key pid) raw_key pid
              programs := dset reg.programs pid meta })

/-- Embedding of `ProgramRegistry.get_id`.  Python's `a or b` coincides
    with option-coalescing here because program ids are non-empty strings. -/
def get_id (reg : ProgramRegistry) (agency bureau account program : String) :
    Option String :=
  let raw_key := normalize_program_key agency bureau account program
  let resolved_key := _apply_aliases raw_key
  match dget reg.key_to_id resolved_key with
  | some pid => some pid
  | none => dget reg.key_to_id raw_key

/-- Embedding of `ProgramRegistry.all_programs` (a dict copy). -/
def all_programs (reg : ProgramRegistry) : List (String × ProgMeta) :=
  reg.programs

/-- Appends each source element missing from the target list
    (the `for x in src: if x not in tgt: tgt.append(x)` pattern). -/
def unionAppend {α : Type} [DecidableEq α] (tgt src : List α) : List α :=
  src.foldl (fun t y => if y ∈ t then t else t ++ [y]) tgt

/-- Merge of the `name_year_map` dicts: keep the latest year per name. -/
def combineNym (tgt src : List (String × Int)) : List (String × Int) :=
  src.foldl
    (fun t nv =>
      match dget t nv.1 with
      | none => dset t nv.1 nv.2
      | some old => if old < nv.2 then dset t nv.1 nv.2 else t)
    tgt

/-- Embedding of `ProgramRegistry._merge`: absorb `source_pid` into
    `target_pid`, redirect every key pointing at the source, and delete the
    source — in the statement order of the Python method. -/
def _merge (reg : ProgramRegistry) (source_pid target_pid : String) :
    ProgramRegistry :=
  match dget reg.programs source_pid, dget reg.programs target_pid with
  | some source, some target =>
    let target' :=
      { target with
        budget_years_seen := unionAppend target.budget_years_seen source.budget_years_seen
        name_variants := unionAppend target.name_variants source.name_variants
        key_variants := unionAppend target.key_variants source.key_variants
        name_year_map := combineNym target.name_year_map source.name_year_map }
    { next_id := reg.next_id
      key_to_id := reg.key_to_id.map
        (fun kp => if kp.2 = source_pid then (kp.1, target_pid) else kp)
      programs := ddel (dset reg.programs target_pid target') source_pid }
  | _, _ => reg  -- unreachable: `reconcile` only merges live program ids

/-- Subsidy-rate observations: `{program_id: {cohort_year: rate-or-None}}`.
    Rates are modelled as exact rationals. -/
def SubsidyRates : Type := List (String × List (Int × Option ℚ))

/-- Embedding of `ProgramRegistry._rates_consistent`. -/
def _rates_consistent (pid_a pid_b : String)
    (subsidy_rates : Option SubsidyRates) (tolerance : ℚ) : Bool :=
  match subsidy_rates with
  | none => true
  | some sr =>
    let rates_a := (dget sr pid_a).getD []
    let rates_b := (dget sr pid_b).getD []
    let common := (rates_a.map Prod.fst).filter (fun yr => dmem rates_b yr)
    if common.isEmpty then true
    else
      common.all (fun yr =>
        match dget rates_a yr, dget rates_b yr with
        | some (some ra), some (some rb) => ratLeB (ratAbs (ratSub ra rb)) tolerance
        | _, _ => true)

/-- One step of building the `defaultdict` of fuzzy groups: append `pid` to
    the group of `key`, creating the group at the end on first sight. -/
def addToGroups (groups : List ((String × String) × List String))
    (key : String × String) (pid : String) :
    List ((String × String) × List String) :=
  match groups with
  | [] => [(key, [pid])]
  | g :: gs =>
    if g.1 = key then (g.1, g.2 ++ [pid]) :: gs
    else g :: addToGroups gs key pid

/-- Fuzzy groups `(fuzzy_agency, fuzzy_program) → [pid, ...]` built over the
    programs dict in insertion order. -/
def fuzzyGroups (progs : List (String × ProgMeta)) :
    List ((String × String) × List String) :=
  progs.foldl
    (fun gs pm =>
      addToGroups gs
        (_normalize_fuzzy pm.2.agency, _normalize_fuzzy pm.2.canonical_name)
        pm.1)
    []

def yearsLen (reg : ProgramRegistry) (pid : String) : Nat :=
  match dget reg.programs pid with
  | some m => m.budget_years_seen.length
  | none => 0  -- unreachable while sorting: group members are live ids

/-- The sort key `(-len(budget_years_seen), pid)` as a boolean comparison:
    most budget years first, then lowest id string. -/
def pidLe (reg : ProgramRegistry) (p q : String) : Bool :=
  decide (yearsLen reg q < yearsLen reg p) ||
    (yearsLen reg p == yearsLen reg q && strLe p q)

def insertLe {α : Type} (le : α → α → Bool) (x : α) : List α → List α
  | [] => [x]
  | y :: ys => if le x y then x :: y :: ys else y :: insertLe le x ys

/-- Insertion sort; on the duplicate-free group lists the comparison
    `pidLe` is a total order, so this agrees with Python's `sorted`. -/
def sortLe {α : Type} (le : α → α → Bool) : List α → List α
  | [] => []
  | x :: xs => insertLe le x (sortLe le xs)

structure ReconcileStats where
  merges : Nat
  blocked_by_rates : Nat
  programs_after : Nat
deriving DecidableEq, Repr

/-- Body of the inner `for source in pids_sorted[1:]` loop of `reconcile`:
    the state triple is (registry, merges, blocked_by_rates). -/
def mergeStep (subsidy_rates : Option SubsidyRates) (tolerance : ℚ)
    (target : String) (st2 : ProgramRegistry × Nat × Nat) (source : String) :
    ProgramRegistry × Nat × Nat :=
  if _rates_consistent target source subsidy_rates tolerance then
    (_merge st2.1 source target, st2.2.1 + 1, st2.2.2)
  else (st2.1, st2.2.1, st2.2.2 + 1)

/-- Body of `reconcile`'s loop for one fuzzy group. -/
def processGroup (subsidy_rates : Option SubsidyRates) (tolerance : ℚ)
    (st : ProgramRegistry × Nat × Nat) (g : (String × String) × List String) :
    ProgramRegistry × Nat × Nat :=
  if g.2.length < 2 then st
  else
    match sortLe (pidLe st.1) g.2 with
    | [] => st  -- impossible: the group has at least two members
    | target :: rest =>
      rest.foldl (mergeStep subsidy_rates tolerance target) st

/-- Embedding of `ProgramRegistry.reconcile`; returns the updated registry
    together with the stats dict. -/
def reconcile (reg : ProgramRegistry) (subsidy_rates : Option SubsidyRates)
    (rate_tolerance : ℚ) : ProgramRegistry × ReconcileStats :=
  let groups := fuzzyGroups reg.programs
  let out := groups.foldl (processGroup subsidy_rates rate_tolerance) (reg, 0, 0)
  (out.1, ⟨out.2.1, out.2.2, out.1.programs.length⟩)

/-! Embedding of Python `float(str)` parsing.  Finite values are exact
    rationals (IEEE-754 rounding is abstracted away); infinities and NaN are
    represented explicitly. -/

inductive PyNum
  | fin (q : ℚ)
  | inf (neg : Bool)
  | nan
deriving DecidableEq, Repr

/-- Continue a digit group after at least one digit: further digits, with
    single underscores allowed between digits (PEP 515); an underscore not
    followed by a digit makes the whole parse fail, as in Python. -/
def digitsUAfter (acc : List Char) : List Char → Option (List Char × List Char)
  | [] => some (acc.reverse, [])
  | c :: cs =>
    if isDigitCh c then digitsUAfter (c :: acc) cs
    else if c = '_' then
      match cs with
      | d :: ds => if isDigitCh d then digitsUAfter (d :: acc) ds else none
      | [] => none
    else some (acc.reverse, c :: cs)

/-- Parse a digit group (at least one digit, underscores between digits);
    returns the digits without underscores and the remaining input. -/
def digitsU : List Char → Option (List Char × List Char)
  | c :: cs => if isDigitCh c then digitsUAfter [c] cs else none
  | [] => none

def digitsToNat (digs : List Char) : Nat :=
  digs.foldl (fun n c => n * 10 + (c.toNat - 48)) 0

/-- Parse the mantissa `D [. D?] | . D`; returns integer digits, fraction
    digits and the rest. -/
def parseMantissa (l : List Char) :
    Option (List Char × List Char × List Char) :=
  match digitsU l with
  | some (ip, rest) =>
    match rest with
    | '.' :: r2 =>
      match digitsU r2 with
      | some (fp, r3) => some (ip, fp, r3)
      | none => some (ip, [], r2)
    | _ => some (ip, [], rest)
  | none =>
    match l with
    | '.' :: r2 =>
      match digitsU r2 with
      | some (fp, r3) => some ([], fp, r3)
      | none => none
    | _ => none

/-- Parse an optional exponent `[eE] [+-]? D` which must consume the whole
    remaining input; an empty input means exponent `0`. -/
def parseExp : List Char → Option ℤ
  | [] => some 0
  | c :: cs =>
    if c = 'e' || c = 'E' then
      let (eneg, cs2) := match cs with
        | '+' :: r => (false, r)
        | '-' :: r => (true, r)
        | _ => (false, cs)
      match digitsU cs2 with
      | some (ds, []) => some (if eneg then -(digitsToNat ds : ℤ) else (digitsToNat ds : ℤ))
      | _ => none
    else none

/-- Python `float(s)` on an already-stripped string. -/
def pyFloatCore (l : List Char) : Option PyNum :=
  let signed : Bool × List Char := match l with
    | '+' :: rest => (false, rest)
    | '-' :: rest => (true, rest)
    | _ => (false, l)
  let neg := signed.1
  let l1 := signed.2
  let low := lowerL l1
  if low = "inf".data || low = "infinity".data then some (.inf neg)
  else if low = "nan".data then some .nan
  else
    match parseMantissa l1 with
    | some (ip, fp, rest) =>
      match parseExp rest with
      | some e =>
        -- value = ±(ip.fp as an integer) · 10^e / 10^(number of fraction
        -- digits), assembled with `Rat.divInt` so that it reduces
        let f := fp.length
        let base : ℤ := (digitsToNat ip * 10 ^ f + digitsToNat fp : ℕ)
        let sbase : ℤ := if neg then -base else base
        let v : ℚ :=
          if 0 ≤ e then Rat.divInt (sbase * 10 ^ e.toNat) ((10 : ℤ) ^ f)
          else Rat.divInt sbase ((10 : ℤ) ^ (f + (-e).toNat))
        some (.fin v)
      | none => none
    | none => none

/-- Python `float(s)`: strip whitespace, then parse sign, `inf`/`nan`, or a
    decimal literal; `none` models `ValueError`. -/
def pyFloat? (s : String) : Option PyNum := pyFloatCore (stripL s.data)

/-! Embedding of the extraction layer shared by `parse_table2.py` and
    `parse_table9.py`. -/

/-- A spreadsheet cell: NaN (missing), a string, or a number.  Other pandas
    cell types do not occur in these sheets. -/
inductive Cell
  | nan
  | cstr (s : String)
  | cnum (x : PyNum)
deriving DecidableEq, Repr

/-- Result of `parse_value`: None, a float, or a string. -/
inductive Value
  | vnone
  | vnum (x : PyNum)
  | vstr (s : String)
deriving DecidableEq, Repr

/-- Display of a numeric cell (Python `str(float)`), approximated: the
    parsers only inspect cell strings for emptiness, indentation, colons and
    ellipsis runs, and this representation — like Python's — is never empty,
    never all-whitespace, never colon-terminated and never contains `...`
    or a colon. -/
def pyNumRepr (x : PyNum) : String :=
  match x with
  | .fin q => toString q
  | .inf b => if b then "-inf" else "inf"
  | .nan => "nan"

/-- Python `str(cell)` for a non-null cell (`str(nan)` is `"nan"`, but every
    use is guarded by `pd.isna`/`pd.notna`). -/
def cellStr (c : Cell) : String :=
  match c with
  | .nan => "nan"
  | .cstr s => s
  | .cnum x => pyNumRepr x

/-- Embedding of `parse_value` from `parse_table2.py` (sentinels
    `'......'`, `''`, `'-'`). -/
def parse_value_t2 (val : Cell) : Value :=
  match val with
  | .nan => .vnone
  | .cnum x => .vnum x
  | .cstr s =>
    let v := pyStrip s
    if v = "......" ∨ v = "" ∨ v = "-" then .vnone
    else
      match pyFloat? v with
      | some x => .vnum x
      | none => .vstr v

/-- Embedding of `parse_value` from `parse_table9.py` (sentinels
    `'......'`, `''`, `'-'`, `'*'`). -/
def parse_value_t9 (val : Cell) : Value :=
  match val with
  | .nan => .vnone
  | .cnum x => .vnum x
  | .cstr s =>
    let v := pyStrip s
    if v = "......" ∨ v = "" ∨ v = "-" ∨ v = "*" then .vnone
    else
      match pyFloat? v with
      | some x => .vnum x
      | none => .vstr v

/-- A row of the sheet; cells beyond the populated region of the rectangular
    DataFrame are NaN. -/
def Row : Type := List Cell

def Row.get (r : Row) (i : Nat) : Cell := r.getD i Cell.nan

/-- Python `col0.split(':')[0]`. -/
def takeBeforeColon : List Char → List Char
  | [] => []
  | c :: cs => if c = ':' then [] else c :: takeBeforeColon cs

/-- Last-character test (`str.endswith` with a single-character suffix). -/
def lastIs (l : List Char) (c : Char) : Bool :=
  match l.getLast? with
  | some d => d = c
  | none => false

/-- Python `col0[0].isupper()` (ASCII). -/
def firstIsUpper (s : String) : Bool :=
  match s.data with
  | c :: _ => 'A' ≤ c && c ≤ 'Z'
  | [] => false

/-- The `KNOWN_BUREAUS` set of `parse_table2.py`. -/
def KNOWN_BUREAUS_T2 : List String :=
  ["Farm Service Agency", "Rural Housing Service",
   "Rural Business-Cooperative Service", "Rural Utilities Service",
   "Forest Service", "Energy Programs",
   "Health Resources and Services Administration",
   "Administration for a Healthy America",
   "Public and Indian Housing Programs", "Community Planning and Development",
   "Housing Programs", "Government National Mortgage Association",
   "Bureau of Indian Affairs", "International Security Assistance",
   "Multilateral Assistance", "Agency for International Development",
   "United States International Development Finance Corporation",
   "Overseas Private Investment Corporation", "Benefits Programs",
   "Small Business Administration",
   "Export-Import Bank of the United States", "Office of the Secretary"]

/-- The `KNOWN_BUREAUS` set of `parse_table9.py`. -/
def KNOWN_BUREAUS_T9 : List String :=
  ["Farm Service Agency", "Rural Housing Service",
   "Rural Business-Cooperative Service", "Rural Utilities Service",
   "National Oceanic and Atmospheric Administration",
   "National Institute of Standards and Technology",
   "Office of Postsecondary Education", "Office of Federal Student Aid",
   "Energy Programs", "Federal Emergency Management Agency",
   "Housing Programs", "Administration of Foreign Affairs",
   "International Security Assistance",
   "Agency for International Development",
   "United States International Development Finance Corporation",
   "Overseas Private Investment Corporation", "Office of the Secretary",
   "Maritime Administration", "Departmental Offices", "Benefits Programs",
   "Corps of Engineers--Civil Works", "Environmental Protection Agency",
   "Small Business Administration",
   "Export-Import Bank of the United States", "Procurement"]

structure Table2Cohort where
  subsidy_rate_percent : Value
  obligations_thousands : Value
  average_loan_size_thousands : Value
deriving DecidableEq, Repr

/-- One program record emitted by the Table 2 parser; the Python dict keys
    its two cohort sub-dicts by `str(year)`, modelled here as the two year
    labels plus the two cohort field groups. -/
structure Table2Record where
  agency : Option String
  bureau : Option String
  account : Option String
  program : String
  bea_category : Value
  year1 : Option Int
  year2 : Option Int
  cohort1 : Table2Cohort
  cohort2 : Table2Cohort
deriving DecidableEq, Repr

structure T2State where
  current_agency : Option String
  current_bureau : Option String
  current_account : Option String
  programs : List Table2Record
deriving DecidableEq, Repr

/-- One iteration of the row loop of `_parse_from_df` in
    `parse_table2.py`. -/
def t2Step (known_bureaus : List String) (year1 year2 : Option Int)
    (st : T2State) (row : Row) : T2State :=
  let col0 := match Row.get row 0 with
              | .nan => ""
              | c => pyStrip (cellStr c)
  if col0 = "" then st
  else
    let is_program := containsSub col0 "......" ||
      (containsSub col0 "..." && containsSub col0 ":")
    if is_program then
      let program_name : String :=
        ⟨rstripP (fun ch => ch = '.') (stripL (takeBeforeColon col0.data))⟩
      let bea_category := parse_value_t2 (Row.get row 1)
      let subsidy_rate_y1 := parse_value_t2 (Row.get row 2)
      let obligations_y1 := parse_value_t2 (Row.get row 3)
      let subsidy_rate_y2 := parse_value_t2 (Row.get row 5)
      let obligations_y2 := parse_value_t2 (Row.get row 6)
      if subsidy_rate_y1 = .vnone ∧ obligations_y1 = .vnone ∧
         subsidy_rate_y2 = .vnone ∧ obligations_y2 = .vnone then st
      else
        let avg_loan_size_y1 := parse_value_t2 (Row.get row 4)
        let avg_loan_size_y2 := parse_value_t2 (Row.get row 7)
        { st with programs := st.programs ++
            [{ agency := st.current_agency
               bureau := st.current_bureau
               account := st.current_account
               program := program_name
               bea_category := bea_category
               year1 := year1
               year2 := year2
               cohort1 := ⟨subsidy_rate_y1, obligations_y1, avg_loan_size_y1⟩
               cohort2 := ⟨subsidy_rate_y2, obligations_y2, avg_loan_size_y2⟩ }] }
    else if lastIs col0.data ':' then
      let name := pyStrip ⟨col0.data.dropLast⟩
      if name ∈ known_bureaus then
        { st with current_bureau := some name, current_account := none }
      else
        { st with current_account := some name }
    else
      if !(containsSub col0 "Agency") && !(containsSub col0 "BEA") then
        { st with current_agency := some col0, current_bureau := none,
                  current_account := none }
      else st

def t2InitState : T2State := ⟨none, none, none, []⟩

/-- Embedding of `_parse_from_df` from `parse_table2.py`: the row loop
    `for idx in range(2, len(df))` over the DataFrame, with `cohort_years`
    and `known_bureaus` supplied by the caller (the constant metadata dict
    of the result is omitted). -/
def _parse_from_df_t2 (df : List Row) (year1 year2 : Option Int)
    (known_bureaus : List String) : List Table2Record :=
  ((df.drop 2).foldl (t2Step known_bureaus year1 year2) t2InitState).programs

/-- One program record emitted by the Table 9 parser
    (`disbursement_schedule_percent` flattened into the ten year fields). -/
structure Table9Record where
  agency : Option String
  bureau : Option String
  account : Option String
  program : String
  year_1 : Value
  year_2 : Value
  year_3 : Value
  year_4 : Value
  year_5 : Value
  year_6 : Value
  year_7 : Value
  year_8 : Value
  year_9 : Value
  year_10_plus : Value
deriving DecidableEq, Repr

structure T9State where
  current_agency : Option String
  current_bureau : Option String
  current_account : Option String
  programs : List Table9Record
deriving DecidableEq, Repr

/-- One iteration of the row loop of `_parse_from_df` in
    `parse_table9.py`. -/
def t9Step (known_bureaus : List String) (st : T9State) (row : Row) :
    T9State :=
  match Row.get row 0 with
  | .nan => st
  | c0 =>
    let raw_str := cellStr c0
    let indent := raw_str.data.length - (raw_str.data.dropWhile isPyWs).length
    let col0 := pyStrip raw_str
    if col0 = "" then st
    else
      let has_data :=
        match Row.get row 1 with
        | .nan => false
        | c1 => !(pyStrip (cellStr c1) = "" || pyStrip (cellStr c1) = "NaN")
      if has_data && (containsSub col0 "..." || lastIs col0.data ':') then
        let program_name : String :=
          ⟨rstripP (fun ch => ch = '.') (stripL (takeBeforeColon col0.data))⟩
        { st with programs := st.programs ++
            [{ agency := st.current_agency
               bureau := st.current_bureau
               account := st.current_account
               program := program_name
               year_1 := parse_value_t9 (Row.get row 1)
               year_2 := parse_value_t9 (Row.get row 2)
               year_3 := parse_value_t9 (Row.get row 3)
               year_4 := parse_value_t9 (Row.get row 4)
               year_5 := parse_value_t9 (Row.get row 5)
               year_6 := parse_value_t9 (Row.get row 6)
               year_7 := parse_value_t9 (Row.get row 7)
               year_8 := parse_value_t9 (Row.get row 8)
               year_9 := parse_value_t9 (Row.get row 9)
               year_10_plus := parse_value_t9 (Row.get row 10) }] }
      else if lastIs col0.data ':' || lastIs (rstripP isDigitCh col0.data) ':' then
        let name : String :=
          pyStrip ⟨rstripP (fun ch => isDigitCh ch || ch = ' ')
                     (rstripP (fun ch => ch = ':') col0.data)⟩
        if indent = 0 then
          -- the two branches of the Python `if name in known_bureaus` are
          -- identical at indent 0: the label sets the bureau either way
          if name ∈ known_bureaus then
            { st with current_bureau := some name, current_account := none }
          else
            { st with current_bureau := some name, current_account := none }
        else if indent ≤ 3 then
          { st with current_account := some name }
        else st
      else
        if indent = 0 ∧ col0.length > 0 ∧ firstIsUpper col0 then
          if !(containsSub col0 "Agency") && !(containsSub col0 "Bureau") &&
             !(containsSub col0 "Percentage") then
            { st with
              current_agency :=
                some ⟨rstripP (fun ch => isDigitCh ch || ch = ' ') col0.data⟩
              current_bureau := none
              current_account := none }
          else st
        else st

def t9InitState : T9State := ⟨none, none, none, []⟩

/-- Embedding of `_parse_from_df` from `parse_table9.py` (the constant
    metadata dict of the result is omitted). -/
def _parse_from_df_t9 (df : List Row) (known_bureaus : List String) :
    List Table9Record :=
  ((df.drop 2).foldl (t9Step known_bureaus) t9InitState).programs

/-! Embedding of the sector classifier from `scripts/sector_taxonomy.py`.
    That module defines its own `_norm` with character-identical regexes to
    the one in `program_matcher.py`; the shared `_norm` above embeds both. -/

/-- The ordered override list `_PROGRAM_OVERRIDES`. -/
def _PROGRAM_OVERRIDES : List (String × String) :=
  [("sba disaster", "disaster_assistance"),
   ("disaster loans", "disaster_assistance"),
   ("disaster assistance", "disaster_assistance"),
   ("rural housing", "housing"),
   ("section 502", "housing"),
   ("section 504", "housing"),
   ("section 515", "housing"),
   ("section 538", "housing"),
   ("flood insurance", "disaster_assistance"),
   ("national flood", "disaster_assistance"),
   ("vendee", "veterans"),
   ("native american veteran", "veterans"),
   ("veterans housing", "veterans"),
   ("ginnie mae", "housing"),
   ("government national mortgage", "housing"),
   ("fha", "housing"),
   ("mutual mortgage", "housing"),
   ("community development", "housing"),
   ("section 108", "housing"),
   ("indian housing", "housing"),
   ("indian home", "housing"),
   ("tifia", "transportation"),
   ("railroad", "transportation"),
   ("defense production act", "defense_security")]

/-- The bureau-rule dict `_BUREAU_RULES`, in insertion order. -/
def _BUREAU_RULES : List (String × String) :=
  [("farm service agency", "agriculture"),
   ("rural business-cooperative service", "agriculture"),
   ("rural utilities service", "agriculture"),
   ("forest service", "agriculture"),
   ("rural housing service", "housing"),
   ("housing programs", "housing"),
   ("public and indian housing programs", "housing"),
   ("community planning and development", "housing"),
   ("government national mortgage association", "housing"),
   ("office of postsecondary education", "education"),
   ("office of federal student aid", "education"),
   ("energy programs", "energy_environment"),
   ("environmental protection agency", "energy_environment"),
   ("administration of foreign affairs", "international"),
   ("international security assistance", "international"),
   ("multilateral assistance", "international"),
   ("agency for international development", "international"),
   ("united states international development finance corporation",
    "international"),
   ("export-import bank of the united states", "international"),
   ("overseas private investment corporation", "international"),
   ("health resources and services administration", "healthcare"),
   ("administration for a healthy america", "healthcare"),
   ("benefits programs", "veterans"),
   ("maritime administration", "transportation"),
   ("federal emergency management agency", "disaster_assistance"),
   ("small business administration", "small_business"),
   ("procurement", "defense_security"),
   ("national oceanic and atmospheric administration", "other_government"),
   ("national institute of standards and technology", "other_government"),
   ("bureau of indian affairs", "other_government"),
   ("office of the secretary", "other_government"),
   ("departmental offices", "other_government"),
   ("corps of engineers-civil works", "other_government"),
   ("corps of engineers--civil works", "other_government")]

/-- The agency-rule dict `_AGENCY_RULES`, in insertion order. -/
def _AGENCY_RULES : List (String × String) :=
  [("department of agriculture", "agriculture"),
   ("department of education", "education"),
   ("department of energy", "energy_environment"),
   ("department of housing and urban development", "housing"),
   ("department of veterans affairs", "veterans"),
   ("department of health and human services", "healthcare"),
   ("department of transportation", "transportation"),
   ("department of homeland security", "disaster_assistance"),
   ("department of defense", "defense_security"),
   ("department of defense-military programs", "defense_security"),
   ("department of state", "international"),
   ("department of the interior", "other_government"),
   ("department of commerce", "other_government"),
   ("department of the treasury", "other_government"),
   ("department of labor", "other_government"),
   ("small business administration", "small_business"),
   ("export-import bank of the united states", "international"),
   ("international assistance programs", "international"),
   ("other independent agencies", "other_government"),
   ("other defense civil programs", "defense_security")]

/-- First program-level override whose pattern is contained in the
    normalized program name or normalized account name (the loop
    `for pattern, sector in _PROGRAM_OVERRIDES`). -/
def firstOverride (n_prog n_account : String) : Option (String × String) :=
  _PROGRAM_OVERRIDES.find?
    (fun ps => containsSub n_prog ps.1 || containsSub n_account ps.1)

/-- Embedding of `classify_program`: program-level overrides, then
    bureau-level rules, then agency-level fallback, then the default
    sector. -/
def classify_program (agency bureau account program : String) : String :=
  let n_prog := _norm program
  let n_bureau := _norm bureau
  let n_agency := _norm agency
  let n_account := _norm account
  match firstOverride n_prog n_account with
  | some ps => ps.2
  | none =>
    match (if n_bureau ≠ "" then
             _BUREAU_RULES.find?
               (fun ps => _norm ps.1 = n_bureau || containsSub n_bureau (_norm ps.1))
           else none) with
    | some ps => ps.2
    | none =>
      match (if n_agency ≠ "" then
               _AGENCY_RULES.find?
                 (fun ps => _norm ps.1 = n_agency || containsSub n_agency (_norm ps.1))
             else none) with
      | some ps => ps.2
      | none => "other_government"

/-! Auxiliary definitions used only to state the theorems below. -/

/-- Arguments of one `register` call. -/
structure RegisterArgs where
  agency : String
  bureau : String
  account : String
  program : String
  budget_year : Option Int
deriving DecidableEq, Repr

/-- Run a sequence of `register` calls on a fresh registry. -/
def applyRegisters (ops : List RegisterArgs) : ProgramRegistry :=
  ops.foldl
    (fun r a => (register r a.agency a.bureau a.account a.program a.budget_year).2)
    emptyRegistry

/-- Every canonical key stored in `_key_to_id` resolves to an identity that
    is currently present in the programs dict. -/
def keysLive (reg : ProgramRegistry) : Prop :=
  ∀ k pid, dget reg.key_to_id k = some pid → (dget reg.programs pid).isSome

/-- Duplicate-free keys of an association list (automatic for every dict
    built through `dset`/`ddel`). -/
def NodupKeys {κ α : Type} (d : List (κ × α)) : Prop :=
  (d.map Prod.fst).Nodup

/-- The pids of all groups of a fuzzy-group list, in order. -/
def groupsFlat (groups : List ((String × String) × List String)) :
    List String :=
  groups.flatMap Prod.snd

/-- The label text extracted by the Table 2 parser from a colon-terminated
    first cell (`col0[:-1].strip()`). -/
def t2LabelName (s0 : String) : String := pyStrip ⟨(pyStrip s0).data.dropLast⟩

/-- The label text extracted by the Table 9 parser from a colon-terminated
    first cell (`col0.rstrip(':').rstrip('0123456789 ').strip()`). -/
def t9LabelName (s0 : String) : String :=
  pyStrip ⟨rstripP (fun ch => isDigitCh ch || ch = ' ')
            (rstripP (fun ch => ch = ':') (pyStrip s0).data)⟩

/-- An empty sheet row. -/
def emptyRow : Row := []

/-- The three rows of the end-to-end extraction scenario in the spec. -/
def scenarioRows : List Row :=
  [[Cell.cstr "Department of Housing", Cell.cstr "", Cell.cstr "", Cell.cstr ""],
   [Cell.cstr "Mortgage Insurance:", Cell.cstr "", Cell.cstr "", Cell.cstr ""],
   [Cell.cstr "Guaranteed Loans.......", Cell.cstr "1.2", Cell.cstr "5000",
    Cell.cstr "50"]]


/-- A small registration scenario: the same agency registers "Widget Loans"
    for one budget year and "Widget Loan" for two; the two spellings have
    distinct canonical keys but the same fuzzy key. -/
def demoOps : List RegisterArgs :=
  [⟨"Agency A", "", "", "Widget Loans", some 2019⟩,
   ⟨"Agency A", "", "", "Widget Loan", some 2020⟩,
   ⟨"Agency A", "", "", "Widget Loan", some 2021⟩]

/-- The single fuzzy group produced by `demoOps`. -/
def demoGroup : (String × String) × List String :=
  (("agency a", "widget loan"), ["P001", "P002"])

/-- Consistent subsidy-rate observations for the demo programs: the shared
    cohort year 2019 differs by 1/5, within tolerance 1/2. -/
def demoRatesOk : SubsidyRates :=
  [("P001", [((2019 : Int), some (Rat.divInt 6 5))]),
   ("P002", [((2019 : Int), some (Rat.divInt 7 5))])]

/-- Inconsistent observations: the shared cohort year 2019 differs by 1,
    beyond tolerance 1/2. -/
def demoRatesBad : SubsidyRates :=
  [("P001", [((2019 : Int), some (Rat.divInt 2 1))]),
   ("P002", [((2019 : Int), some (Rat.divInt 3 1))])]

/-! Lemmas about the dictionary operations. -/

theorem dget_dset_self {κ α : Type} [DecidableEq κ] (d : List (κ × α))
    (k : κ) (v : α) : dget (dset d k v) k = some v := by
  induction d with
  | nil => simp [dset, dget]
  | cons kv rest ih =>
    obtain ⟨k1, v1⟩ := kv
    by_cases h : k1 = k
    · subst h; simp [dset, dget]
    · simp [dset, dget, h, ih]

theorem dget_dset_ne {κ α : Type} [DecidableEq κ] (d : List (κ × α))
    (k k' : κ) (v : α) (h : k' ≠ k) :
    dget (dset d k v) k' = dget d k' := by
  have h' : ¬ k = k' := fun e => h e.symm
  induction d with
  | nil => simp [dset, dget, h']
  | cons kv rest ih =>
    obtain ⟨k1, v1⟩ := kv
    by_cases hk : k1 = k
    · subst hk; simp [dset, dget, h']
    · simp [dset, dget, hk, ih]

theorem dget_ddel_ne {κ α : Type} [DecidableEq κ] (d : List (κ × α))
    (k k' : κ) (h : k' ≠ k) : dget (ddel d k) k' = dget d k' := by
  have h' : ¬ k = k' := fun e => h e.symm
  induction d with
  | nil => simp [ddel]
  | cons kv rest ih =>
    obtain ⟨k1, v1⟩ := kv
    by_cases hk : k1 = k
    · subst hk; simp [ddel, dget, h']
    · simp [ddel, dget, hk, ih]

theorem dget_eq_none_iff {κ α : Type} [DecidableEq κ] (d : List (κ × α))
    (k : κ) : dget d k = none ↔ k ∉ dkeys d := by
  induction d with
  | nil => simp [dget, dkeys]
  | cons kv rest ih =>
    obtain ⟨k1, v1⟩ := kv
    by_cases hk : k1 = k
    · subst hk; simp [dget, dkeys]
    · have hkk : ¬ k = k1 := fun e => hk e.symm
      simp [dget, dkeys, hk, hkk, ih]

theorem dget_isSome_iff {κ α : Type} [DecidableEq κ] (d : List (κ × α))
    (k : κ) : (dget d k).isSome ↔ k ∈ dkeys d := by
  cases h : dget d k with
  | none => simp [h, (dget_eq_none_iff d k).mp h]
  | some v =>
    have h2 : ¬ dget d k = none := by simp [h]
    have := (dget_eq_none_iff d k).not.mp h2
    simp [h, not_not.mp this]

theorem dget_ddel_self {κ α : Type} [DecidableEq κ] (d : List (κ × α))
    (k : κ) (h : NodupKeys d) : dget (ddel d k) k = none := by
  induction d with
  | nil => simp [ddel, dget]
  | cons kv rest ih =>
    obtain ⟨k1, v1⟩ := kv
    have h1 : k1 ∉ dkeys rest := by
      have := (List.nodup_cons.mp h).1
      simpa [dkeys] using this
    have h2 : NodupKeys rest := (List.nodup_cons.mp h).2
    by_cases hk : k1 = k
    · subst hk
      simpa [ddel] using (dget_eq_none_iff rest k1).mpr h1
    · simp [ddel, dget, hk, ih h2]

theorem keys_ddel_sublist {κ α : Type} [DecidableEq κ] (d : List (κ × α))
    (k : κ) : (dkeys (ddel d k)).Sublist (dkeys d) := by
  induction d with
  | nil => simp [ddel, dkeys]
  | cons kv rest ih =>
    obtain ⟨k1, v1⟩ := kv
    by_cases hk : k1 = k
    · simp only [ddel, if_pos hk, dkeys, List.map_cons]
      exact (List.sublist_cons_self k1 (List.map Prod.fst rest))
    · simp only [ddel, if_neg hk, dkeys, List.map_cons]
      exact List.Sublist.cons₂ k1 ih

theorem NodupKeys_ddel {κ α : Type} [DecidableEq κ] (d : List (κ × α))
    (k : κ) (h : NodupKeys d) : NodupKeys (ddel d k) :=
  List.Nodup.sublist (keys_ddel_sublist d k) h

theorem dkeys_cons {κ α : Type} (kv : κ × α) (rest : List (κ × α)) :
    dkeys (kv :: rest) = kv.1 :: dkeys rest := rfl

theorem keys_dset_of_mem {κ α : Type} [DecidableEq κ] (d : List (κ × α))
    (k : κ) (v : α) (h : k ∈ dkeys d) : dkeys (dset d k v) = dkeys d := by
  induction d with
  | nil => simp [dkeys] at h
  | cons kv rest ih =>
    obtain ⟨k1, v1⟩ := kv
    by_cases hk : k1 = k
    · simp only [dset, if_pos hk, dkeys_cons]
    · have hkk : ¬ k = k1 := fun e => hk e.symm
      have hm : k ∈ dkeys rest := by
        rcases List.mem_cons.mp (by simpa [dkeys_cons] using h) with e | hm
        · exact absurd e hkk
        · exact hm
      simp only [dset, if_neg hk, dkeys_cons, ih hm]

theorem keys_dset_of_not_mem {κ α : Type} [DecidableEq κ] (d : List (κ × α))
    (k : κ) (v : α) (h : k ∉ dkeys d) :
    dkeys (dset d k v) = dkeys d ++ [k] := by
  induction d with
  | nil => simp [dset, dkeys]
  | cons kv rest ih =>
    obtain ⟨k1, v1⟩ := kv
    have hne : ¬ k1 = k := by
      intro e; exact h (by simp [dkeys_cons, e])
    have hrest : k ∉ dkeys rest := fun hm => h (by simp [dkeys_cons, hm])
    simp only [dset, if_neg hne, dkeys_cons, ih hrest, List.cons_append]

theorem NodupKeys_dset {κ α : Type} [DecidableEq κ] (d : List (κ × α))
    (k : κ) (v : α) (h : NodupKeys d) : NodupKeys (dset d k v) := by
  by_cases hm : k ∈ dkeys d
  · unfold NodupKeys
    rw [show List.map Prod.fst (dset d k v) = dkeys (dset d k v) from rfl,
        keys_dset_of_mem d k v hm]
    exact h
  · unfold NodupKeys
    rw [show List.map Prod.fst (dset d k v) = dkeys (dset d k v) from rfl,
        keys_dset_of_not_mem d k v hm]
    simp [List.nodup_append]
    exact ⟨h, hm⟩

/-! Correctness of the kernel-reducible rational helpers. -/

theorem ratMul_eq (a b : ℚ) : ratMul a b = a * b := by
  unfold ratMul
  have ha : ((a.den : ℤ)) ≠ 0 := Int.natCast_ne_zero.mpr a.den_nz
  have hb : ((b.den : ℤ)) ≠ 0 := Int.natCast_ne_zero.mpr b.den_nz
  rw [← Rat.divInt_mul_divInt _ _ ha hb, Rat.divInt_self, Rat.divInt_self]

theorem ratSub_eq (a b : ℚ) : ratSub a b = a - b := by
  unfold ratSub
  have ha : ((a.den : ℤ)) ≠ 0 := Int.natCast_ne_zero.mpr a.den_nz
  have hb : ((b.den : ℤ)) ≠ 0 := Int.natCast_ne_zero.mpr b.den_nz
  rw [← Rat.divInt_sub_divInt _ _ ha hb, Rat.divInt_self, Rat.divInt_self]

theorem ratAbs_eq (a : ℚ) : ratAbs a = |a| := by
  unfold ratAbs
  rcases le_or_lt 0 a.num with h | h
  · rw [Int.natAbs_of_nonneg h, Rat.divInt_self,
      abs_of_nonneg (Rat.num_nonneg.mp h)]
  · rw [Int.ofNat_natAbs_of_nonpos (le_of_lt h), ← Rat.neg_divInt,
      Rat.divInt_self, abs_of_neg (Rat.num_neg.mp h)]

theorem ratLeB_iff (a b : ℚ) : ratLeB a b = true ↔ a ≤ b := by
  unfold ratLeB
  rw [decide_eq_true_iff]
  exact Rat.le_def.symm

/-- The rate-comparison step of `_rates_consistent` is exactly
    `|ra - rb| ≤ tolerance`. -/
theorem rateWithin_iff (ra rb tol : ℚ) :
    ratLeB (ratAbs (ratSub ra rb)) tol = true ↔ |ra - rb| ≤ tol := by
  rw [ratLeB_iff, ratAbs_eq, ratSub_eq]

/-! Lemmas about stripping. -/

theorem rstripP_idem (p : Char → Bool) (l : List Char) :
    rstripP p (rstripP p l) = rstripP p l := by
  induction l with
  | nil => simp [rstripP]
  | cons c cs ih =>
    cases h : rstripP p cs with
    | nil =>
      by_cases hc : p c
      · simp [rstripP, h, hc]
      · simp [rstripP, h, hc]
    | cons d ds =>
      have : rstripP p (c :: cs) = c :: d :: ds := by
        simp [rstripP, h]
      rw [this]
      have ih' : rstripP p (d :: ds) = d :: ds := by rw [← h, ih, h]
      have e1 : rstripP p (c :: d :: ds) =
          match rstripP p (d :: ds) with
          | [] => if p c then [] else [c]
          | rest => c :: rest := rfl
      rw [e1, ih']

theorem rstripP_prefix (p : Char → Bool) (l : List Char) :
    (rstripP p l).IsPrefix l := by
  induction l with
  | nil => simp [rstripP]
  | cons c cs ih =>
    cases h : rstripP p cs with
    | nil =>
      by_cases hc : p c
      · simp [rstripP, h, hc]
      · simp [rstripP, h, hc]
    | cons d ds =>
      have : rstripP p (c :: cs) = c :: d :: ds := by simp [rstripP, h]
      rw [this]
      rw [h] at ih
      exact (List.prefix_cons_inj c).mpr ih

theorem dropWhile_head_false (p : Char → Bool) (l : List Char) :
    ∀ c cs, l.dropWhile p = c :: cs → p c = false := by
  induction l with
  | nil => intro c cs h; simp [List.dropWhile] at h
  | cons a rest ih =>
    intro c cs h
    by_cases ha : p a
    · rw [List.dropWhile_cons_of_pos ha] at h
      exact ih c cs h
    · rw [List.dropWhile_cons_of_neg ha] at h
      cases h
      simpa using ha

theorem stripL_idem (l : List Char) : stripL (stripL l) = stripL l := by
  unfold stripL
  set m := l.dropWhile isPyWs with hm
  cases hr : rstripP isPyWs m with
  | nil => simp [hr, List.dropWhile, rstripP]
  | cons c cs =>
    have hpre := rstripP_prefix isPyWs m
    rw [hr] at hpre
    have hchead : ∃ t, m = c :: t := by
      rcases hpre with ⟨t, ht⟩
      exact ⟨cs ++ t, by rw [← ht]; simp⟩
    rcases hchead with ⟨t, hmt⟩
    have hc : isPyWs c = false := dropWhile_head_false isPyWs l c t (hm ▸ hmt)
    have hdw : (c :: cs).dropWhile isPyWs = c :: cs :=
      List.dropWhile_cons_of_neg (by simp [hc])
    rw [hdw, ← hr, rstripP_idem, hr]

theorem pyStrip_idem (s : String) : pyStrip (pyStrip s) = pyStrip s := by
  unfold pyStrip
  rw [show (⟨stripL s.data⟩ : String).data = stripL s.data from rfl, stripL_idem]

/-- C9: a program named "SBA Disaster Loans" under bureau "Small Business
Administration" classifies as `disaster_assistance`, not `small_business`;
and in general the first program-level override whose pattern is contained
in the normalized program name or account name decides the sector, before
any bureau- or agency-level rule is consulted. -/
theorem c9_sba_disaster_override :
    (classify_program "" "Small Business Administration" "" "SBA Disaster Loans"
        = "disaster_assistance" ∧
      classify_program "" "Small Business Administration" "" "SBA Disaster Loans"
        ≠ "small_business") ∧
    ∀ agency bureau account program pat sec,
      firstOverride (_norm program) (_norm account) = some (pat, sec) →
      classify_program agency bureau account program = sec := by
  refine ⟨⟨by decide, by decide⟩, ?_⟩
  intro agency bureau account program pat sec h
  simp only [classify_program, h]

/-- Witness for C9: the override list fires on the scenario input. -/
theorem c9_sba_disaster_override_witness :
    firstOverride (_norm "SBA Disaster Loans") (_norm "")
        = some ("sba disaster", "disaster_assistance") ∧
    classify_program "Small Business Administration"
        "Small Business Administration" "" "SBA Disaster Loans"
        = "disaster_assistance" :=
  ⟨by decide,
   c9_sba_disaster_override.2 "Small Business Administration"
     "Small Business Administration" "" "SBA Disaster Loans"
     "sba disaster" "disaster_assistance" (by decide)⟩

/-- C7 (amended): the cell normalizers of Tables 2 and 9 are total and
return exactly one of a float, a non-empty trimmed string, or null: null,
blank, whitespace-only and the per-table sentinel tokens give null; a string
accepted by Python's float grammar after trimming (underscores between
digits allowed, but no thousands separators and no interior spaces) gives
that number as a float; every other string gives its trimmed form. -/
theorem c7_parse_value_contract :
    (∀ c, parse_value_t2 c = Value.vnone ∨
       (∃ x, parse_value_t2 c = Value.vnum x) ∨
       (∃ s, parse_value_t2 c = Value.vstr s ∧ s ≠ "" ∧ pyStrip s = s)) ∧
    (∀ c, parse_value_t9 c = Value.vnone ∨
       (∃ x, parse_value_t9 c = Value.vnum x) ∨
       (∃ s, parse_value_t9 c = Value.vstr s ∧ s ≠ "" ∧ pyStrip s = s)) ∧
    (parse_value_t2 Cell.nan = Value.vnone ∧
     parse_value_t9 Cell.nan = Value.vnone) ∧
    (∀ s, pyStrip s = "" → parse_value_t2 (Cell.cstr s) = Value.vnone ∧
       parse_value_t9 (Cell.cstr s) = Value.vnone) ∧
    (parse_value_t2 (Cell.cstr "......") = Value.vnone ∧
     parse_value_t2 (Cell.cstr "-") = Value.vnone ∧
     parse_value_t9 (Cell.cstr "......") = Value.vnone ∧
     parse_value_t9 (Cell.cstr "-") = Value.vnone ∧
     parse_value_t9 (Cell.cstr "*") = Value.vnone) ∧
    (∀ s x, pyFloat? (pyStrip s) = some x →
       parse_value_t2 (Cell.cstr s) = Value.vnum x) ∧
    (∀ s x, pyFloat? (pyStrip s) = some x →
       parse_value_t9 (Cell.cstr s) = Value.vnum x) ∧
    (∀ s, ¬ (pyStrip s = "......" ∨ pyStrip s = "" ∨ pyStrip s = "-") →
       pyFloat? (pyStrip s) = none →
       parse_value_t2 (Cell.cstr s) = Value.vstr (pyStrip s)) ∧
    (∀ s, ¬ (pyStrip s = "......" ∨ pyStrip s = "" ∨ pyStrip s = "-" ∨
          pyStrip s = "*") →
       pyFloat? (pyStrip s) = none →
       parse_value_t9 (Cell.cstr s) = Value.vstr (pyStrip s)) := by
  refine ⟨?_, ?_, ⟨rfl, rfl⟩, ?_, ⟨by decide, by decide, by decide, by decide, by decide⟩, ?_, ?_, ?_, ?_⟩
  · intro c
    cases c with
    | nan => exact Or.inl rfl
    | cnum x => exact Or.inr (Or.inl ⟨x, rfl⟩)
    | cstr s =>
      by_cases hb : pyStrip s = "......" ∨ pyStrip s = "" ∨ pyStrip s = "-"
      · exact Or.inl (by simp [parse_value_t2, hb])
      · cases hf : pyFloat? (pyStrip s) with
        | some x => exact Or.inr (Or.inl ⟨x, by simp [parse_value_t2, hb, hf]⟩)
        | none =>
          refine Or.inr (Or.inr ⟨pyStrip s, by simp [parse_value_t2, hb, hf],
            ?_, pyStrip_idem s⟩)
          intro he
          exact hb (Or.inr (Or.inl he))
  · intro c
    cases c with
    | nan => exact Or.inl rfl
    | cnum x => exact Or.inr (Or.inl ⟨x, rfl⟩)
    | cstr s =>
      by_cases hb : pyStrip s = "......" ∨ pyStrip s = "" ∨ pyStrip s = "-" ∨
          pyStrip s = "*"
      · exact Or.inl (by simp [parse_value_t9, hb])
      · cases hf : pyFloat? (pyStrip s) with
        | some x => exact Or.inr (Or.inl ⟨x, by simp [parse_value_t9, hb, hf]⟩)
        | none =>
          refine Or.inr (Or.inr ⟨pyStrip s, by simp [parse_value_t9, hb, hf],
            ?_, pyStrip_idem s⟩)
          intro he
          exact hb (Or.inr (Or.inl he))
  · intro s h
    constructor
    · simp [parse_value_t2, h]
    · simp [parse_value_t9, h]
  · intro s x h
    by_cases hb : pyStrip s = "......" ∨ pyStrip s = "" ∨ pyStrip s = "-"
    · exfalso
      have hnone : pyFloat? (pyStrip s) = none := by
        rcases hb with h1 | h1 | h1 <;> rw [h1] <;> rfl
      rw [hnone] at h
      exact Option.noConfusion h
    · simp [parse_value_t2, hb, h]
  · intro s x h
    by_cases hb : pyStrip s = "......" ∨ pyStrip s = "" ∨ pyStrip s = "-" ∨
        pyStrip s = "*"
    · exfalso
      have hnone : pyFloat? (pyStrip s) = none := by
        rcases hb with h1 | h1 | h1 | h1 <;> rw [h1] <;> rfl
      rw [hnone] at h
      exact Option.noConfusion h
    · simp [parse_value_t9, hb, h]
  · intro s hb hf
    simp [parse_value_t2, hb, hf]
  · intro s hb hf
    simp [parse_value_t9, hb, hf]

/-- Witness for C7: concrete evaluations of the float clause and of the
fallback-to-trimmed-string clause. -/
theorem c7_parse_value_contract_witness :
    pyFloat? (pyStrip " 1.2 ") = some (PyNum.fin (Rat.divInt 6 5)) ∧
    parse_value_t2 (Cell.cstr " 1.2 ") = Value.vnum (PyNum.fin (Rat.divInt 6 5)) ∧
    parse_value_t9 (Cell.cstr " 1.2 ") = Value.vnum (PyNum.fin (Rat.divInt 6 5)) ∧
    parse_value_t2 (Cell.cstr " n/a ") = Value.vstr (pyStrip " n/a ") ∧
    parse_value_t9 (Cell.cstr " n/a ") = Value.vstr (pyStrip " n/a ") :=
  ⟨by decide,
   c7_parse_value_contract.2.2.2.2.2.1 " 1.2 " (PyNum.fin (Rat.divInt 6 5)) (by decide),
   c7_parse_value_contract.2.2.2.2.2.2.1 " 1.2 " (PyNum.fin (Rat.divInt 6 5)) (by decide),
   c7_parse_value_contract.2.2.2.2.2.2.2.1 " n/a " (by decide) (by decide),
   c7_parse_value_contract.2.2.2.2.2.2.2.2 " n/a " (by decide) (by decide)⟩

/-- C7 counterexample: a string with a thousands separator parses as a
number after stripping the comma, but `parse_value` returns the trimmed
string, not the float. -/
theorem c7_counterexample :
    parse_value_t2 (Cell.cstr "5,000") = Value.vstr "5,000" ∧
    parse_value_t9 (Cell.cstr "5,000") = Value.vstr "5,000" ∧
    parse_value_t2 (Cell.cstr "5,000") ≠ Value.vnum (PyNum.fin 5000) ∧
    parse_value_t2 (Cell.cstr "5 000") = Value.vstr "5 000" := by
  refine ⟨by decide, by decide, by decide, by decide⟩

/-- C5 counterexample: feeding exactly the three scenario rows to the
Table 9 extractor yields one record with no agency and no bureau, because
the row loop starts at index 2 and skips the first two rows as headers. -/
theorem c5_counterexample :
    (_parse_from_df_t9 scenarioRows ["Mortgage Insurance"]).map
        (fun r => (r.agency, r.bureau, r.program)) =
      [(none, none, "Guaranteed Loans")] ∧
    ¬ ((_parse_from_df_t9 scenarioRows ["Mortgage Insurance"]).map
        (fun r => (r.agency, r.bureau, r.program)) =
      [(some "Department of Housing", some "Mortgage Insurance",
        "Guaranteed Loans")]) := by
  constructor
  · decide
  · decide

/-- C5 (amended): the three scenario rows, placed after the two header rows
the row loop skips, produce exactly one ProgramRecord with
agency "Department of Housing", bureau "Mortgage Insurance" (from the
known-bureaus lookup), program name "Guaranteed Loans", and the three
populated financial cells parsed as the floats 1.2, 5000 and 50 (the
remaining schedule cells are null). -/
theorem c5_amended_scenario :
    _parse_from_df_t9 ([emptyRow, emptyRow] ++ scenarioRows) ["Mortgage Insurance"] =
      [{ agency := some "Department of Housing"
         bureau := some "Mortgage Insurance"
         account := none
         program := "Guaranteed Loans"
         year_1 := Value.vnum (PyNum.fin (Rat.divInt 6 5))
         year_2 := Value.vnum (PyNum.fin 5000)
         year_3 := Value.vnum (PyNum.fin 50)
         year_4 := Value.vnone
         year_5 := Value.vnone
         year_6 := Value.vnone
         year_7 := Value.vnone
         year_8 := Value.vnone
         year_9 := Value.vnone
         year_10_plus := Value.vnone }] := by
  decide


/-- C8: extraction is total — it is defined as a structurally recursive fold,
so it runs to completion on every input row sequence; a completely empty
input yields an empty record list, and each row contributes at most one
record (rows matching no branch, the malformed ones included, contribute
none and processing continues with the next row). -/
theorem c8_extraction_never_fails :
    (∀ year1 year2 kb, _parse_from_df_t2 [] year1 year2 kb = []) ∧
    (∀ kb, _parse_from_df_t9 [] kb = []) ∧
    (∀ kb year1 year2 st row,
       (t2Step kb year1 year2 st row).programs = st.programs ∨
       ∃ rec, (t2Step kb year1 year2 st row).programs = st.programs ++ [rec]) ∧
    (∀ kb st row,
       (t9Step kb st row).programs = st.programs ∨
       ∃ rec, (t9Step kb st row).programs = st.programs ++ [rec]) := by
  refine ⟨fun _ _ _ => rfl, fun _ => rfl, ?_, ?_⟩
  · intro kb y1 y2 st row
    simp only [t2Step]
    repeat' split
    all_goals first
      | exact Or.inl rfl
      | exact Or.inr ⟨_, rfl⟩
  · intro kb st row
    simp only [t9Step]
    repeat' split
    all_goals first
      | exact Or.inl rfl
      | exact Or.inr ⟨_, rfl⟩

/-- C6 (amended): hierarchy-label rows.  In the Table 2 parser, a non-program
row whose first cell ends with a colon (the condition does not trim footnote
digits) sets the bureau and clears the account when the label is a member of
the known-bureaus set, and otherwise sets the account and leaves the bureau
unchanged — as the claim states.  In the Table 9 parser the label branch is
indentation-gated instead: at indent 0 the label always sets the bureau and
clears the account, member of the known-bureaus set or not; at indent 1–3 it
always sets the account; at deeper indents it changes nothing. -/
theorem c6_label_row_handling :
    (∀ (kb : List String) (year1 year2 : Option Int) (st : T2State)
       (row : Row) (s0 : String),
       Row.get row 0 = Cell.cstr s0 →
       pyStrip s0 ≠ "" →
       (containsSub (pyStrip s0) "......" ||
         (containsSub (pyStrip s0) "..." && containsSub (pyStrip s0) ":")) = false →
       lastIs (pyStrip s0).data ':' = true →
       (t2LabelName s0 ∈ kb →
         t2Step kb year1 year2 st row =
           { st with current_bureau := some (t2LabelName s0),
                     current_account := none }) ∧
       (t2LabelName s0 ∉ kb →
         t2Step kb year1 year2 st row =
           { st with current_account := some (t2LabelName s0) })) ∧
    (∀ (kb : List String) (st : T9State) (row : Row) (s0 : String),
       Row.get row 0 = Cell.cstr s0 →
       pyStrip s0 ≠ "" →
       ((match Row.get row 1 with
         | Cell.nan => false
         | c1 => !(pyStrip (cellStr c1) = "" || pyStrip (cellStr c1) = "NaN")) &&
        (containsSub (pyStrip s0) "..." || lastIs (pyStrip s0).data ':')) = false →
       (lastIs (pyStrip s0).data ':' ||
        lastIs (rstripP isDigitCh (pyStrip s0).data) ':') = true →
       (s0.data.length - (s0.data.dropWhile isPyWs).length = 0 →
         t9Step kb st row =
           { st with current_bureau := some (t9LabelName s0),
                     current_account := none }) ∧
       (1 ≤ s0.data.length - (s0.data.dropWhile isPyWs).length →
        s0.data.length - (s0.data.dropWhile isPyWs).length ≤ 3 →
         t9Step kb st row = { st with current_account := some (t9LabelName s0) }) ∧
       (3 < s0.data.length - (s0.data.dropWhile isPyWs).length →
         t9Step kb st row = st)) := by
  constructor
  · intro kb year1 year2 st row s0 h0 hne hprog hcolon
    have hcell : cellStr (Cell.cstr s0) = s0 := rfl
    constructor
    · intro hmem
      have hmem' : pyStrip ⟨(pyStrip s0).data.dropLast⟩ ∈ kb := hmem
      simp only [t2Step, h0, hcell]
      rw [if_neg hne, hprog]
      rw [if_neg (by simp : ¬ ((false : Bool) = true))]
      rw [hcolon, if_pos (rfl : (true : Bool) = true)]
      rw [if_pos hmem']
      rfl
    · intro hmem
      have hmem' : pyStrip ⟨(pyStrip s0).data.dropLast⟩ ∉ kb := hmem
      simp only [t2Step, h0, hcell]
      rw [if_neg hne, hprog]
      rw [if_neg (by simp : ¬ ((false : Bool) = true))]
      rw [hcolon, if_pos (rfl : (true : Bool) = true)]
      rw [if_neg hmem']
      rfl
  · intro kb st row s0 h0 hne hprog hcolon
    have hcell : cellStr (Cell.cstr s0) = s0 := rfl
    refine ⟨?_, ?_, ?_⟩
    · intro hind
      simp only [t9Step, h0, hcell]
      rw [if_neg hne, hprog]
      rw [if_neg (by simp : ¬ ((false : Bool) = true))]
      rw [hcolon, if_pos (rfl : (true : Bool) = true)]
      rw [if_pos hind]
      simp only [ite_self]
      rfl
    · intro hind1 hind3
      have hne0 : ¬ (s0.data.length - (s0.data.dropWhile isPyWs).length = 0) := by
        omega
      simp only [t9Step, h0, hcell]
      rw [if_neg hne, hprog]
      rw [if_neg (by simp : ¬ ((false : Bool) = true))]
      rw [hcolon, if_pos (rfl : (true : Bool) = true)]
      rw [if_neg hne0, if_pos hind3]
      rfl
    · intro hind
      have hne0 : ¬ (s0.data.length - (s0.data.dropWhile isPyWs).length = 0) := by
        omega
      have hne3 : ¬ (s0.data.length - (s0.data.dropWhile isPyWs).length ≤ 3) := by
        omega
      simp only [t9Step, h0, hcell]
      rw [if_neg hne, hprog]
      rw [if_neg (by simp : ¬ ((false : Bool) = true))]
      rw [hcolon, if_pos (rfl : (true : Bool) = true)]
      rw [if_neg hne0, if_neg hne3]

/-- C6 counterexample: in the Table 9 parser, an indent-0 label that is not
in the known-bureaus set sets the bureau and clears the account, where the
claim says it should set the account and leave the bureau unchanged. -/
theorem c6_counterexample :
    ("Zork" ∉ KNOWN_BUREAUS_T9) ∧
    (t9Step KNOWN_BUREAUS_T9
        ⟨some "Agency A", some "Bureau B", some "Account C", []⟩
        [Cell.cstr "Zork:"]).current_bureau = some "Zork" ∧
    (t9Step KNOWN_BUREAUS_T9
        ⟨some "Agency A", some "Bureau B", some "Account C", []⟩
        [Cell.cstr "Zork:"]).current_account = none ∧
    ¬ ((t9Step KNOWN_BUREAUS_T9
          ⟨some "Agency A", some "Bureau B", some "Account C", []⟩
          [Cell.cstr "Zork:"]).current_account = some "Zork" ∧
       (t9Step KNOWN_BUREAUS_T9
          ⟨some "Agency A", some "Bureau B", some "Account C", []⟩
          [Cell.cstr "Zork:"]).current_bureau = some "Bureau B") := by
  refine ⟨by decide, by decide, by decide, by decide⟩

/-- Witness for C6: a Table 9 label at indent 1 becomes the account, and a
Table 2 bureau label sets the bureau. -/
theorem c6_label_row_handling_witness :
    t9Step KNOWN_BUREAUS_T9 ⟨some "A", some "B", some "C", []⟩
        [Cell.cstr " Energy Programs:"] =
      ⟨some "A", some "B", some (t9LabelName " Energy Programs:"), []⟩ ∧
    t2Step KNOWN_BUREAUS_T2 none none ⟨some "A", some "B", some "C", []⟩
        [Cell.cstr "Housing Programs:"] =
      ⟨some "A", some (t2LabelName "Housing Programs:"), none, []⟩ :=
  ⟨((c6_label_row_handling.2 KNOWN_BUREAUS_T9 ⟨some "A", some "B", some "C", []⟩
      [Cell.cstr " Energy Programs:"] " Energy Programs:" rfl (by decide)
      (by decide) (by decide)).2.1 (by decide) (by decide)),
   ((c6_label_row_handling.1 KNOWN_BUREAUS_T2 none none
      ⟨some "A", some "B", some "C", []⟩ [Cell.cstr "Housing Programs:"]
      "Housing Programs:" rfl (by decide) (by decide) (by decide)).1 (by decide))⟩

/-! Lemmas about alias resolution and `register` (claim C4). -/

theorem string_eta (s : String) : (⟨s.data⟩ : String) = s := rfl

theorem splitPipeAux_no_sep (l : List Char) (acc : List Char)
    (h : '|' ∉ l) : splitPipeAux acc l = [⟨acc.reverse ++ l⟩] := by
  induction l generalizing acc with
  | nil => simp [splitPipeAux]
  | cons c cs ih =>
    have hc : ¬ (c = '|') := fun e => h (by simp [e])
    have hcs : '|' ∉ cs := fun m => h (by simp [m])
    simp [splitPipeAux, hc, ih _ hcs]

theorem splitPipeAux_sep (l rest : List Char) (acc : List Char)
    (h : '|' ∉ l) :
    splitPipeAux acc (l ++ '|' :: rest) =
      ⟨acc.reverse ++ l⟩ :: splitPipeAux [] rest := by
  induction l generalizing acc with
  | nil => simp [splitPipeAux]
  | cons c cs ih =>
    have hc : ¬ (c = '|') := fun e => h (by simp [e])
    have hcs : '|' ∉ cs := fun m => h (by simp [m])
    simp [splitPipeAux, hc, ih _ hcs]

theorem splitPipe_join4 (x1 x2 x3 x4 : String) (h1 : '|' ∉ x1.data)
    (h2 : '|' ∉ x2.data) (h3 : '|' ∉ x3.data) (h4 : '|' ∉ x4.data) :
    splitPipe (joinPipe [x1, x2, x3, x4]) = [x1, x2, x3, x4] := by
  unfold splitPipe
  simp only [joinPipe, String.data_append]
  rw [List.append_assoc, List.singleton_append,
      splitPipeAux_sep x1.data _ [] h1]
  rw [List.append_assoc, List.singleton_append,
      splitPipeAux_sep x2.data _ [] h2]
  rw [List.append_assoc, List.singleton_append,
      splitPipeAux_sep x3.data _ [] h3]
  rw [splitPipeAux_no_sep x4.data [] h4]
  simp [string_eta]

theorem apply_aliases_four (x1 x2 x3 x4 : String) (h1 : '|' ∉ x1.data)
    (h2 : '|' ∉ x2.data) (h3 : '|' ∉ x3.data) (h4 : '|' ∉ x4.data) :
    _apply_aliases (joinPipe [x1, x2, x3, x4]) =
      joinPipe [x1, (dget _ALIAS_MAP x2).getD x2, x3,
                (dget _ALIAS_MAP x4).getD x4] := by
  unfold _apply_aliases
  rw [splitPipe_join4 x1 x2 x3 x4 h1 h2 h3 h4]
  cases hx2 : dget _ALIAS_MAP x2 <;> cases hx4 : dget _ALIAS_MAP x4 <;>
    simp [hx2, hx4]

/-- Facts about the fixed alias table: every normalized left-hand side maps
    to its normalized right-hand side, no right-hand side is itself an alias
    key, and no entry contains the pipe separator. -/
theorem alias_table_facts :
    ∀ ab ∈ PROGRAM_ALIASES,
      dget _ALIAS_MAP (_norm ab.1) = some (_norm ab.2) ∧
      dget _ALIAS_MAP (_norm ab.2) = none ∧
      '|' ∉ (_norm ab.1).data ∧ '|' ∉ (_norm ab.2).data := by
  decide

/-- After any `register` call, the alias-resolved key of the registered
    tuple maps to the returned program id. -/
theorem register_resolved_maps (reg : ProgramRegistry)
    (ag bu acc p : String) (y : Option Int) :
    dget ((register reg ag bu acc p y).2).key_to_id
        (_apply_aliases (normalize_program_key ag bu acc p)) =
      some ((register reg ag bu acc p y).1) := by
  simp only [register]
  cases hr : dget reg.key_to_id (_apply_aliases (normalize_program_key ag bu acc p)) with
  | some pid =>
    cases hp : dget reg.programs pid <;> simp [hr, hp]
  | none =>
    cases hb : (if normalize_program_key ag bu acc p ≠
          _apply_aliases (normalize_program_key ag bu acc p) then
        dget reg.key_to_id (normalize_program_key ag bu acc p) else none) with
    | some pid =>
      simp only [hr, hb]
      cases hp : dget reg.programs pid <;>
        simp [hp, dget_dset_self]
    | none =>
      simp only [hr, hb]
      by_cases hraw : normalize_program_key ag bu acc p =
          _apply_aliases (normalize_program_key ag bu acc p)
      · rw [← hraw]
        simp [dget_dset_self]
      · rw [dget_dset_ne _ _ _ _ (fun e => hraw e.symm), dget_dset_self]

/-- Registering a second tuple whose alias-resolved key coincides with the
    first tuple's returns the id of the first registration. -/
theorem register_second_id (reg : ProgramRegistry)
    (ag1 bu1 acc1 p1 : String) (y1 : Option Int)
    (ag2 bu2 acc2 p2 : String) (y2 : Option Int)
    (h : _apply_aliases (normalize_program_key ag2 bu2 acc2 p2) =
         _apply_aliases (normalize_program_key ag1 bu1 acc1 p1)) :
    (register (register reg ag1 bu1 acc1 p1 y1).2 ag2 bu2 acc2 p2 y2).1 =
      (register reg ag1 bu1 acc1 p1 y1).1 := by
  have h1 := register_resolved_maps reg ag1 bu1 acc1 p1 y1
  rw [← h] at h1
  set reg1 := (register reg ag1 bu1 acc1 p1 y1).2 with hreg1
  set pid1 := (register reg ag1 bu1 acc1 p1 y1).1 with hpid1
  simp only [register]
  rw [h1]
  cases hp : dget reg1.programs pid1 <;> simp [hp]

/-- After any `register` call, `get_id` on the registered tuple returns the
    id the call returned. -/
theorem get_id_after_register (reg : ProgramRegistry)
    (ag bu acc p : String) (y : Option Int) :
    get_id (register reg ag bu acc p y).2 ag bu acc p =
      some ((register reg ag bu acc p y).1) := by
  simp only [get_id]
  rw [register_resolved_maps]

/-- `get_id` returns whatever id the alias-resolved key maps to. -/
theorem get_id_resolved (reg : ProgramRegistry) (ag bu acc p pid : String)
    (h : dget reg.key_to_id (_apply_aliases (normalize_program_key ag bu acc p)) =
      some pid) :
    get_id reg ag bu acc p = some pid := by
  simp only [get_id]
  rw [h]

/-- After registering two tuples whose alias-resolved keys coincide, the
    second call returns the first id, and `get_id` on either tuple returns
    that shared id. -/
theorem register_pair_get_id (reg : ProgramRegistry)
    (ag1 bu1 acc1 p1 : String) (y1 : Option Int)
    (ag2 bu2 acc2 p2 : String) (y2 : Option Int)
    (h : _apply_aliases (normalize_program_key ag2 bu2 acc2 p2) =
         _apply_aliases (normalize_program_key ag1 bu1 acc1 p1)) :
    (register (register reg ag1 bu1 acc1 p1 y1).2 ag2 bu2 acc2 p2 y2).1 =
      (register reg ag1 bu1 acc1 p1 y1).1 ∧
    get_id (register (register reg ag1 bu1 acc1 p1 y1).2 ag2 bu2 acc2 p2 y2).2
        ag1 bu1 acc1 p1 = some ((register reg ag1 bu1 acc1 p1 y1).1) ∧
    get_id (register (register reg ag1 bu1 acc1 p1 y1).2 ag2 bu2 acc2 p2 y2).2
        ag2 bu2 acc2 p2 = some ((register reg ag1 bu1 acc1 p1 y1).1) := by
  have hid := register_second_id reg ag1 bu1 acc1 p1 y1 ag2 bu2 acc2 p2 y2 h
  have hres := register_resolved_maps (register reg ag1 bu1 acc1 p1 y1).2
    ag2 bu2 acc2 p2 y2
  rw [hid, h] at hres
  have hres2 := register_resolved_maps (register reg ag1 bu1 acc1 p1 y1).2
    ag2 bu2 acc2 p2 y2
  rw [hid] at hres2
  exact ⟨hid, get_id_resolved _ _ _ _ _ _ hres,
         get_id_resolved _ _ _ _ _ _ hres2⟩

/-- C4 (amended): for every alias pair (A, B) in the fixed alias table,
registering a hierarchy tuple whose program (or bureau) component normalizes
to A and registering the otherwise-identical tuple with B in its place
return the same program_id, in either registration order (for components
free of the pipe separator, without which the canonical key cannot delimit
its four parts), and afterwards `get_id` on both tuples resolves to that
shared id through the alias-resolved key; moreover, after every
registration the alias-resolved key maps to the returned program_id and
`get_id` on the registered tuple returns it.  The claim's final clause is
false: a registration that matches an existing identity through the
already-known resolved key records its raw key only in the metadata's
key_variants, never in key_to_id, so that raw canonical key stays unmapped
permanently — see the counterexample. -/
theorem c4_alias_equivalence :
    (∀ (a b ag bu acc p1 p2 : String) (y1 y2 : Option Int)
       (reg : ProgramRegistry),
       (a, b) ∈ PROGRAM_ALIASES →
       '|' ∉ (_norm ag).data → '|' ∉ (_norm bu).data → '|' ∉ (_norm acc).data →
       _norm (footnoteSub p1) = _norm a → _norm (footnoteSub p2) = _norm b →
       ((register (register reg ag bu acc p1 y1).2 ag bu acc p2 y2).1 =
          (register reg ag bu acc p1 y1).1 ∧
        get_id (register (register reg ag bu acc p1 y1).2 ag bu acc p2 y2).2
            ag bu acc p1 = some ((register reg ag bu acc p1 y1).1) ∧
        get_id (register (register reg ag bu acc p1 y1).2 ag bu acc p2 y2).2
            ag bu acc p2 = some ((register reg ag bu acc p1 y1).1)) ∧
       ((register (register reg ag bu acc p2 y1).2 ag bu acc p1 y2).1 =
          (register reg ag bu acc p2 y1).1 ∧
        get_id (register (register reg ag bu acc p2 y1).2 ag bu acc p1 y2).2
            ag bu acc p2 = some ((register reg ag bu acc p2 y1).1) ∧
        get_id (register (register reg ag bu acc p2 y1).2 ag bu acc p1 y2).2
            ag bu acc p1 = some ((register reg ag bu acc p2 y1).1))) ∧
    (∀ (a b ag bu1 bu2 acc p : String) (y1 y2 : Option Int)
       (reg : ProgramRegistry),
       (a, b) ∈ PROGRAM_ALIASES →
       '|' ∉ (_norm ag).data → '|' ∉ (_norm acc).data →
       '|' ∉ (_norm (footnoteSub p)).data →
       _norm bu1 = _norm a → _norm bu2 = _norm b →
       ((register (register reg ag bu1 acc p y1).2 ag bu2 acc p y2).1 =
          (register reg ag bu1 acc p y1).1 ∧
        get_id (register (register reg ag bu1 acc p y1).2 ag bu2 acc p y2).2
            ag bu1 acc p = some ((register reg ag bu1 acc p y1).1) ∧
        get_id (register (register reg ag bu1 acc p y1).2 ag bu2 acc p y2).2
            ag bu2 acc p = some ((register reg ag bu1 acc p y1).1)) ∧
       ((register (register reg ag bu2 acc p y1).2 ag bu1 acc p y2).1 =
          (register reg ag bu2 acc p y1).1 ∧
        get_id (register (register reg ag bu2 acc p y1).2 ag bu1 acc p y2).2
            ag bu2 acc p = some ((register reg ag bu2 acc p y1).1) ∧
        get_id (register (register reg ag bu2 acc p y1).2 ag bu1 acc p y2).2
            ag bu1 acc p = some ((register reg ag bu2 acc p y1).1))) ∧
    (∀ (ag bu acc p : String) (y : Option Int) (reg : ProgramRegistry),
       dget ((register reg ag bu acc p y).2).key_to_id
           (_apply_aliases (normalize_program_key ag bu acc p)) =
         some ((register reg ag bu acc p y).1) ∧
       get_id (register reg ag bu acc p y).2 ag bu acc p =
         some ((register reg ag bu acc p y).1)) := by
  refine ⟨?_, ?_, ?_⟩
  · intro a b ag bu acc p1 p2 y1 y2 reg hmem hag hbu hacc hp1 hp2
    obtain ⟨hfa, hfb, hpa, hpb⟩ := alias_table_facts (a, b) hmem
    have hkey : _apply_aliases (normalize_program_key ag bu acc p2) =
        _apply_aliases (normalize_program_key ag bu acc p1) := by
      simp only [normalize_program_key]
      rw [apply_aliases_four _ _ _ _ hag hbu hacc (by rw [hp2]; exact hpb),
          apply_aliases_four _ _ _ _ hag hbu hacc (by rw [hp1]; exact hpa)]
      rw [hp1, hp2, hfa, hfb]
      simp
    exact ⟨register_pair_get_id reg ag bu acc p1 y1 ag bu acc p2 y2 hkey,
           register_pair_get_id reg ag bu acc p2 y1 ag bu acc p1 y2 hkey.symm⟩
  · intro a b ag bu1 bu2 acc p y1 y2 reg hmem hag hacc hp hb1 hb2
    obtain ⟨hfa, hfb, hpa, hpb⟩ := alias_table_facts (a, b) hmem
    have hkey : _apply_aliases (normalize_program_key ag bu2 acc p) =
        _apply_aliases (normalize_program_key ag bu1 acc p) := by
      simp only [normalize_program_key]
      rw [apply_aliases_four _ _ _ _ hag (by rw [hb2]; exact hpb) hacc hp,
          apply_aliases_four _ _ _ _ hag (by rw [hb1]; exact hpa) hacc hp]
      rw [hb1, hb2, hfa, hfb]
      simp
    exact ⟨register_pair_get_id reg ag bu1 acc p y1 ag bu2 acc p y2 hkey,
           register_pair_get_id reg ag bu2 acc p y1 ag bu1 acc p y2 hkey.symm⟩
  · intro ag bu acc p y reg
    exact ⟨register_resolved_maps reg ag bu acc p y,
           get_id_after_register reg ag bu acc p y⟩

/-- Witness for C4: the Stafford alias pair from the table, registered in
both orders on a fresh registry; `get_id` resolves both tuples either way. -/
theorem c4_alias_equivalence_witness :
    ((register (register emptyRegistry "" "" "" "Stafford Loans" none).2
        "" "" "" "Stafford" none).1 =
      (register emptyRegistry "" "" "" "Stafford Loans" none).1 ∧
     get_id (register (register emptyRegistry "" "" "" "Stafford Loans" none).2
        "" "" "" "Stafford" none).2 "" "" "" "Stafford Loans" =
      some (register emptyRegistry "" "" "" "Stafford Loans" none).1 ∧
     get_id (register (register emptyRegistry "" "" "" "Stafford Loans" none).2
        "" "" "" "Stafford" none).2 "" "" "" "Stafford" =
      some (register emptyRegistry "" "" "" "Stafford Loans" none).1) ∧
    ((register (register emptyRegistry "" "" "" "Stafford" none).2
        "" "" "" "Stafford Loans" none).1 =
      (register emptyRegistry "" "" "" "Stafford" none).1 ∧
     get_id (register (register emptyRegistry "" "" "" "Stafford" none).2
        "" "" "" "Stafford Loans" none).2 "" "" "" "Stafford" =
      some (register emptyRegistry "" "" "" "Stafford" none).1 ∧
     get_id (register (register emptyRegistry "" "" "" "Stafford" none).2
        "" "" "" "Stafford Loans" none).2 "" "" "" "Stafford Loans" =
      some (register emptyRegistry "" "" "" "Stafford" none).1) :=
  c4_alias_equivalence.1 "stafford loans" "stafford" "" "" ""
    "Stafford Loans" "Stafford" none none emptyRegistry
    (by decide) (by decide) (by decide) (by decide) (by decide) (by decide)

/-- C4 counterexample: registering "Stafford" (the alias target) first and
then "Stafford Loans" returns the same id, but the raw canonical key of the
second tuple is never stored in the key map, so it does not map to the
program_id (the claim says both raw and resolved keys must). -/
theorem c4_counterexample :
    (register (register emptyRegistry "" "" "" "Stafford" none).2
        "" "" "" "Stafford Loans" none).1 =
      (register emptyRegistry "" "" "" "Stafford" none).1 ∧
    dget (register (register emptyRegistry "" "" "" "Stafford" none).2
        "" "" "" "Stafford Loans" none).2.key_to_id
      (normalize_program_key "" "" "" "Stafford Loans") = none := by
  exact ⟨by decide, by decide⟩

/-! Lemmas about `_merge` (claims C1, C2, C3, C10). -/

theorem dget_redirect (d : List (String × String)) (s t k : String) :
    dget (d.map (fun kp => if kp.2 = s then (kp.1, t) else kp)) k =
      (dget d k).map (fun p => if p = s then t else p) := by
  induction d with
  | nil => rfl
  | cons kv rest ih =>
    obtain ⟨k1, v1⟩ := kv
    have hmap : ((k1, v1) :: rest).map
        (fun kp => if kp.2 = s then (kp.1, t) else kp) =
        (if v1 = s then (k1, t) else (k1, v1)) ::
          rest.map (fun kp => if kp.2 = s then (kp.1, t) else kp) := by
      simp
    rw [hmap]
    by_cases hv : v1 = s
    · rw [if_pos hv]
      by_cases hk : k1 = k
      · simp [dget, hk, hv]
      · simp [dget, hk, ih]
    · rw [if_neg hv]
      by_cases hk : k1 = k
      · simp [dget, hk, hv]
      · simp [dget, hk, ih]

theorem merge_found (reg : ProgramRegistry) (s t : String) (sm tm : ProgMeta)
    (hs : dget reg.programs s = some sm) (ht : dget reg.programs t = some tm) :
    ∃ tm', _merge reg s t =
      { next_id := reg.next_id
        key_to_id := reg.key_to_id.map
          (fun kp => if kp.2 = s then (kp.1, t) else kp)
        programs := ddel (dset reg.programs t tm') s } := by
  unfold _merge
  rw [hs, ht]
  exact ⟨_, rfl⟩

theorem merge_noop_left (reg : ProgramRegistry) (s t : String)
    (hs : dget reg.programs s = none) : _merge reg s t = reg := by
  cases ht : dget reg.programs t <;> simp [_merge, hs, ht]

theorem merge_noop_right (reg : ProgramRegistry) (s t : String)
    (ht : dget reg.programs t = none) : _merge reg s t = reg := by
  cases hs : dget reg.programs s <;> simp [_merge, hs, ht]

theorem merge_prog_frame (reg : ProgramRegistry) (s t q : String)
    (hqs : q ≠ s) (hqt : q ≠ t) :
    dget (_merge reg s t).programs q = dget reg.programs q := by
  cases hs : dget reg.programs s with
  | none => rw [merge_noop_left reg s t hs]
  | some sm =>
    cases ht : dget reg.programs t with
    | none => rw [merge_noop_right reg s t ht]
    | some tm =>
      obtain ⟨tm', he⟩ := merge_found reg s t sm tm hs ht
      rw [he]
      show dget (ddel (dset reg.programs t tm') s) q = dget reg.programs q
      rw [dget_ddel_ne _ _ _ hqs, dget_dset_ne _ _ _ _ hqt]

theorem merge_prog_source (reg : ProgramRegistry) (s t : String)
    (hnd : NodupKeys reg.programs) (_hst : s ≠ t)
    (ht : (dget reg.programs t).isSome) :
    dget (_merge reg s t).programs s = none := by
  cases hs : dget reg.programs s with
  | none =>
    rw [merge_noop_left reg s t hs]
    exact hs
  | some sm =>
    obtain ⟨tm, htm⟩ := Option.isSome_iff_exists.mp ht
    obtain ⟨tm', he⟩ := merge_found reg s t sm tm hs htm
    rw [he]
    show dget (ddel (dset reg.programs t tm') s) s = none
    exact dget_ddel_self _ _ (NodupKeys_dset _ _ _ hnd)

theorem merge_prog_target (reg : ProgramRegistry) (s t : String)
    (hst : s ≠ t) (ht : (dget reg.programs t).isSome) :
    (dget (_merge reg s t).programs t).isSome := by
  cases hs : dget reg.programs s with
  | none =>
    rw [merge_noop_left reg s t hs]
    exact ht
  | some sm =>
    obtain ⟨tm, htm⟩ := Option.isSome_iff_exists.mp ht
    obtain ⟨tm', he⟩ := merge_found reg s t sm tm hs htm
    rw [he]
    show (dget (ddel (dset reg.programs t tm') s) t).isSome
    rw [dget_ddel_ne _ _ _ (fun e => hst e.symm), dget_dset_self]
    rfl

theorem merge_prog_absent (reg : ProgramRegistry) (s t q : String)
    (hq : dget reg.programs q = none) :
    dget (_merge reg s t).programs q = none := by
  cases hs : dget reg.programs s with
  | none => rw [merge_noop_left reg s t hs]; exact hq
  | some sm =>
    cases ht : dget reg.programs t with
    | none => rw [merge_noop_right reg s t ht]; exact hq
    | some tm =>
      have hqs : q ≠ s := fun e => by rw [e, hs] at hq; exact Option.noConfusion hq
      have hqt : q ≠ t := fun e => by rw [e, ht] at hq; exact Option.noConfusion hq
      rw [merge_prog_frame reg s t q hqs hqt]
      exact hq

theorem merge_keys_found (reg : ProgramRegistry) (s t : String)
    (sm tm : ProgMeta) (hs : dget reg.programs s = some sm)
    (ht : dget reg.programs t = some tm) (k : String) :
    dget (_merge reg s t).key_to_id k =
      (dget reg.key_to_id k).map (fun p => if p = s then t else p) := by
  obtain ⟨tm', he⟩ := merge_found reg s t sm tm hs ht
  rw [he]
  exact dget_redirect reg.key_to_id s t k

theorem merge_nodup (reg : ProgramRegistry) (s t : String)
    (hnd : NodupKeys reg.programs) : NodupKeys (_merge reg s t).programs := by
  cases hs : dget reg.programs s with
  | none => rw [merge_noop_left reg s t hs]; exact hnd
  | some sm =>
    cases ht : dget reg.programs t with
    | none => rw [merge_noop_right reg s t ht]; exact hnd
    | some tm =>
      obtain ⟨tm', he⟩ := merge_found reg s t sm tm hs ht
      rw [he]
      exact NodupKeys_ddel _ _ (NodupKeys_dset _ _ _ hnd)

theorem merge_keysLive (reg : ProgramRegistry) (s t : String)
    (hl : keysLive reg) (_hnd : NodupKeys reg.programs) (hst : s ≠ t) :
    keysLive (_merge reg s t) := by
  cases hs : dget reg.programs s with
  | none => rw [merge_noop_left reg s t hs]; exact hl
  | some sm =>
    cases ht : dget reg.programs t with
    | none => rw [merge_noop_right reg s t ht]; exact hl
    | some tm =>
      intro k p hkp
      rw [merge_keys_found reg s t sm tm hs ht k] at hkp
      cases hk : dget reg.key_to_id k with
      | none => rw [hk] at hkp; exact Option.noConfusion hkp
      | some p0 =>
        rw [hk] at hkp
        simp at hkp
        have hts : (dget reg.programs t).isSome := by rw [ht]; rfl
        have hp0 := hl k p0 hk
        by_cases hp0s : p0 = s
        · have hpt : t = p := by rw [← hkp]; simp [hp0s]
          rw [← hpt]
          exact merge_prog_target reg s t hst hts
        · have hpp : p0 = p := by rw [← hkp]; simp [hp0s]
          rw [← hpp]
          by_cases hp0t : p0 = t
          · rw [hp0t]
            exact merge_prog_target reg s t hst hts
          · rw [merge_prog_frame reg s t p0 hp0s hp0t]
            exact hp0

/-! Lemmas about single merge steps on the key map. -/

theorem merge_key_some (reg : ProgramRegistry) (s t k q : String)
    (hqs : q ≠ s) (hq : dget reg.key_to_id k = some q) :
    dget (_merge reg s t).key_to_id k = some q := by
  cases hs : dget reg.programs s with
  | none => rw [merge_noop_left reg s t hs]; exact hq
  | some sm =>
    cases ht : dget reg.programs t with
    | none => rw [merge_noop_right reg s t ht]; exact hq
    | some tm =>
      rw [merge_keys_found reg s t sm tm hs ht k, hq]
      simp [hqs]

theorem merge_key_none (reg : ProgramRegistry) (s t k : String)
    (hq : dget reg.key_to_id k = none) :
    dget (_merge reg s t).key_to_id k = none := by
  cases hs : dget reg.programs s with
  | none => rw [merge_noop_left reg s t hs]; exact hq
  | some sm =>
    cases ht : dget reg.programs t with
    | none => rw [merge_noop_right reg s t ht]; exact hq
    | some tm =>
      rw [merge_keys_found reg s t sm tm hs ht k, hq]
      rfl

/-! Lemmas about the inner merge loop of `reconcile`. -/

theorem foldMerge_prog_frame (σ : Option SubsidyRates) (τ : ℚ) (t : String) :
    ∀ (sources : List String) (st : ProgramRegistry × Nat × Nat) (q : String),
      q ≠ t → (∀ s ∈ sources, q ≠ s) →
      dget (sources.foldl (mergeStep σ τ t) st).1.programs q =
        dget st.1.programs q := by
  intro sources
  induction sources with
  | nil => intro st q _ _; rfl
  | cons s rest ih =>
    intro st q hqt hqs
    rw [List.foldl_cons,
        ih (mergeStep σ τ t st s) q hqt
          (fun s' hs' => hqs s' (List.mem_cons_of_mem _ hs'))]
    unfold mergeStep
    split
    · exact merge_prog_frame st.1 s t q (hqs s (List.mem_cons_self s rest)) hqt
    · rfl

theorem foldMerge_prog_absent (σ : Option SubsidyRates) (τ : ℚ) (t : String) :
    ∀ (sources : List String) (st : ProgramRegistry × Nat × Nat) (q : String),
      dget st.1.programs q = none →
      dget (sources.foldl (mergeStep σ τ t) st).1.programs q = none := by
  intro sources
  induction sources with
  | nil => intro st q hq; exact hq
  | cons s rest ih =>
    intro st q hq
    rw [List.foldl_cons]
    refine ih (mergeStep σ τ t st s) q ?_
    unfold mergeStep
    split
    · exact merge_prog_absent st.1 s t q hq
    · exact hq

theorem foldMerge_key_some (σ : Option SubsidyRates) (τ : ℚ) (t : String) :
    ∀ (sources : List String) (st : ProgramRegistry × Nat × Nat) (k q : String),
      (∀ s ∈ sources, q ≠ s) →
      dget st.1.key_to_id k = some q →
      dget (sources.foldl (mergeStep σ τ t) st).1.key_to_id k = some q := by
  intro sources
  induction sources with
  | nil => intro st k q _ hq; exact hq
  | cons s rest ih =>
    intro st k q hqs hq
    rw [List.foldl_cons]
    refine ih (mergeStep σ τ t st s) k q
      (fun s' hs' => hqs s' (List.mem_cons_of_mem _ hs')) ?_
    unfold mergeStep
    split
    · exact merge_key_some st.1 s t k q (hqs s (List.mem_cons_self s rest)) hq
    · exact hq

theorem foldMerge_key_none (σ : Option SubsidyRates) (τ : ℚ) (t : String) :
    ∀ (sources : List String) (st : ProgramRegistry × Nat × Nat) (k : String),
      dget st.1.key_to_id k = none →
      dget (sources.foldl (mergeStep σ τ t) st).1.key_to_id k = none := by
  intro sources
  induction sources with
  | nil => intro st k hq; exact hq
  | cons s rest ih =>
    intro st k hq
    rw [List.foldl_cons]
    refine ih (mergeStep σ τ t st s) k ?_
    unfold mergeStep
    split
    · exact merge_key_none st.1 s t k hq
    · exact hq

theorem foldMerge_keysLive (σ : Option SubsidyRates) (τ : ℚ) (t : String) :
    ∀ (sources : List String) (st : ProgramRegistry × Nat × Nat),
      (∀ s ∈ sources, s ≠ t) →
      keysLive st.1 → NodupKeys st.1.programs →
      keysLive (sources.foldl (mergeStep σ τ t) st).1 ∧
        NodupKeys (sources.foldl (mergeStep σ τ t) st).1.programs := by
  intro sources
  induction sources with
  | nil => intro st _ hl hnd; exact ⟨hl, hnd⟩
  | cons s rest ih =>
    intro st hne hl hnd
    rw [List.foldl_cons]
    refine ih (mergeStep σ τ t st s) (fun s' hs' => hne s' (List.mem_cons_of_mem _ hs')) ?_ ?_
    · unfold mergeStep
      split
      · exact merge_keysLive st.1 s t hl hnd (hne s (List.mem_cons_self s rest))
      · exact hl
    · unfold mergeStep
      split
      · exact merge_nodup st.1 s t hnd
      · exact hnd

theorem foldMerge_blocked_mono (σ : Option SubsidyRates) (τ : ℚ) (t : String) :
    ∀ (sources : List String) (st : ProgramRegistry × Nat × Nat),
      st.2.2 ≤ (sources.foldl (mergeStep σ τ t) st).2.2 := by
  intro sources
  induction sources with
  | nil => intro st; exact le_refl _
  | cons s rest ih =>
    intro st
    rw [List.foldl_cons]
    refine le_trans ?_ (ih (mergeStep σ τ t st s))
    unfold mergeStep
    split
    · exact le_refl _
    · exact Nat.le_succ _

/-- Outcome of the inner merge loop when the target is consistent with every
source: all sources are absorbed (deleted), the target survives, untouched
programs keep their metadata, every key pointing at a source is redirected
to the target, the merge counter grows by the number of sources, and the
blocked counter is unchanged. -/
theorem foldMerge_all_consistent (σ : Option SubsidyRates) (τ : ℚ) (t : String) :
    ∀ (sources : List String) (st : ProgramRegistry × Nat × Nat),
      sources.Nodup → (∀ s ∈ sources, s ≠ t) →
      (∀ s ∈ sources, _rates_consistent t s σ τ = true) →
      (∀ s ∈ sources, (dget st.1.programs s).isSome) →
      (dget st.1.programs t).isSome →
      NodupKeys st.1.programs →
      (dget (sources.foldl (mergeStep σ τ t) st).1.programs t).isSome ∧
      (∀ s ∈ sources,
        dget (sources.foldl (mergeStep σ τ t) st).1.programs s = none) ∧
      (∀ q, q ≠ t → q ∉ sources →
        dget (sources.foldl (mergeStep σ τ t) st).1.programs q =
          dget st.1.programs q) ∧
      (∀ k, dget (sources.foldl (mergeStep σ τ t) st).1.key_to_id k =
        (dget st.1.key_to_id k).map (fun p => if p ∈ sources then t else p)) ∧
      (sources.foldl (mergeStep σ τ t) st).2.1 = st.2.1 + sources.length ∧
      (sources.foldl (mergeStep σ τ t) st).2.2 = st.2.2 ∧
      NodupKeys (sources.foldl (mergeStep σ τ t) st).1.programs := by
  intro sources
  induction sources with
  | nil =>
    intro st _ _ _ _ ht hnd
    refine ⟨ht, by simp, fun q _ _ => rfl, ?_, rfl, rfl, hnd⟩
    intro k
    rw [List.foldl_nil]
    cases hk : dget st.1.key_to_id k <;> simp [hk]
  | cons s rest ih =>
    intro st hndsrc hne hcons hlive ht hnd
    have hst : s ≠ t := hne s (List.mem_cons_self s rest)
    have hcs : _rates_consistent t s σ τ = true :=
      hcons s (List.mem_cons_self s rest)
    have hsl : (dget st.1.programs s).isSome :=
      hlive s (List.mem_cons_self s rest)
    have hsnotin : s ∉ rest := (List.nodup_cons.mp hndsrc).1
    have hndrest : rest.Nodup := (List.nodup_cons.mp hndsrc).2
    obtain ⟨sm, hsm⟩ := Option.isSome_iff_exists.mp hsl
    obtain ⟨tm, htm⟩ := Option.isSome_iff_exists.mp ht
    have hstep : mergeStep σ τ t st s = (_merge st.1 s t, st.2.1 + 1, st.2.2) := by
      simp [mergeStep, hcs]
    rw [List.foldl_cons, hstep]
    have hlive1 : ∀ s' ∈ rest,
        (dget (_merge st.1 s t, st.2.1 + 1, st.2.2).1.programs s').isSome := by
      intro s' hs'
      have hs's : s' ≠ s := fun e => hsnotin (e ▸ hs')
      show (dget (_merge st.1 s t).programs s').isSome
      rw [merge_prog_frame st.1 s t s' hs's (hne s' (List.mem_cons_of_mem _ hs'))]
      exact hlive s' (List.mem_cons_of_mem _ hs')
    have ht1 : (dget (_merge st.1 s t, st.2.1 + 1, st.2.2).1.programs t).isSome :=
      merge_prog_target st.1 s t hst ht
    have hnd1 : NodupKeys (_merge st.1 s t, st.2.1 + 1, st.2.2).1.programs :=
      merge_nodup st.1 s t hnd
    obtain ⟨iht, ihsrc, ihframe, ihkeys, ihm, ihb, ihnd⟩ :=
      ih (_merge st.1 s t, st.2.1 + 1, st.2.2) hndrest
        (fun s' hs' => hne s' (List.mem_cons_of_mem _ hs'))
        (fun s' hs' => hcons s' (List.mem_cons_of_mem _ hs'))
        hlive1 ht1 hnd1
    refine ⟨iht, ?_, ?_, ?_, ?_, ?_, ihnd⟩
    · intro s' hs'
      rcases List.mem_cons.mp hs' with e | hmem
      · subst e
        rw [ihframe s' hst hsnotin]
        show dget (_merge st.1 s' t).programs s' = none
        exact merge_prog_source st.1 s' t hnd hst ht
      · exact ihsrc s' hmem
    · intro q hqt hqns
      have hqs : q ≠ s := fun e => hqns (by rw [e]; exact List.mem_cons_self s rest)
      have hqrest : q ∉ rest := fun m => hqns (List.mem_cons_of_mem _ m)
      rw [ihframe q hqt hqrest]
      exact merge_prog_frame st.1 s t q hqs hqt
    · intro k
      rw [ihkeys k]
      show ((dget (_merge st.1 s t).key_to_id k).map
          (fun p => if p ∈ rest then t else p)) = _
      rw [merge_keys_found st.1 s t sm tm hsm htm k]
      rw [Option.map_map]
      cases hk : dget st.1.key_to_id k with
      | none => rfl
      | some p0 =>
        by_cases hp0 : p0 = s <;> simp [hp0, Function.comp, List.mem_cons]
    · show _ = st.2.1 + (rest.length + 1)
      rw [ihm]
      show st.2.1 + 1 + rest.length = st.2.1 + (rest.length + 1)
      omega
    · exact ihb

/-! Lemmas about the string order and the insertion sort used by
    `reconcile`. -/

theorem char_toNat_inj (a b : Char) (h : a.toNat = b.toNat) : a = b :=
  Char.ext (UInt32.ext h)

theorem strLeL_refl : ∀ l : List Char, strLeL l l = true := by
  intro l
  induction l with
  | nil => rfl
  | cons a l1 ih => simp [strLeL, ih]

theorem strLeL_total : ∀ l1 l2 : List Char,
    strLeL l1 l2 = true ∨ strLeL l2 l1 = true := by
  intro l1
  induction l1 with
  | nil => intro l2; left; rfl
  | cons a as ih =>
    intro l2
    cases l2 with
    | nil => right; rfl
    | cons b bs =>
      by_cases hab : a = b
      · subst hab
        rcases ih bs with h | h
        · left; simpa [strLeL] using h
        · right; simpa [strLeL] using h
      · have hba : ¬ b = a := fun e => hab e.symm
        rcases Nat.lt_or_ge a.toNat b.toNat with h | h
        · left; simp [strLeL, hab, h]
        · rcases Nat.eq_or_lt_of_le h with he | hlt
          · exact absurd (char_toNat_inj b a he) hba
          · right; simp [strLeL, hba, hlt]

theorem strLeL_trans : ∀ l1 l2 l3 : List Char,
    strLeL l1 l2 = true → strLeL l2 l3 = true → strLeL l1 l3 = true := by
  intro l1
  induction l1 with
  | nil => intro l2 l3 _ _; rfl
  | cons a as ih =>
    intro l2 l3 h12 h23
    cases l2 with
    | nil => simp [strLeL] at h12
    | cons b bs =>
      cases l3 with
      | nil => simp [strLeL] at h23
      | cons c cs =>
        by_cases hab : a = b <;> by_cases hbc : b = c
        · subst hab; subst hbc
          simp [strLeL] at h12 h23 ⊢
          exact ih bs cs h12 h23
        · subst hab
          simp [strLeL, hbc] at h23 ⊢
          exact h23
        · subst hbc
          simp [strLeL, hab] at h12 ⊢
          exact h12
        · simp [strLeL, hab, hbc] at h12 h23
          have hac : a.toNat < c.toNat := Nat.lt_trans h12 h23
          have habc : ¬ a = c := by
            intro e
            rw [e] at h12
            exact Nat.lt_irrefl _ (Nat.lt_trans h12 h23)
          simp [strLeL, habc, hac]

theorem strLe_refl (p : String) : strLe p p = true := strLeL_refl p.data

theorem strLe_total (p q : String) : strLe p q = true ∨ strLe q p = true :=
  strLeL_total p.data q.data

theorem strLe_trans (p q r : String) (h1 : strLe p q = true)
    (h2 : strLe q r = true) : strLe p r = true :=
  strLeL_trans p.data q.data r.data h1 h2

theorem pidLe_iff (reg : ProgramRegistry) (p q : String) :
    pidLe reg p q = true ↔
      yearsLen reg q < yearsLen reg p ∨
        (yearsLen reg p = yearsLen reg q ∧ strLe p q = true) := by
  simp [pidLe]

theorem pidLe_total (reg : ProgramRegistry) (p q : String) :
    pidLe reg p q = true ∨ pidLe reg q p = true := by
  rcases Nat.lt_trichotomy (yearsLen reg p) (yearsLen reg q) with h | h | h
  · right; exact (pidLe_iff reg q p).mpr (Or.inl h)
  · rcases strLe_total p q with hs | hs
    · left; exact (pidLe_iff reg p q).mpr (Or.inr ⟨h, hs⟩)
    · right; exact (pidLe_iff reg q p).mpr (Or.inr ⟨h.symm, hs⟩)
  · left; exact (pidLe_iff reg p q).mpr (Or.inl h)

theorem pidLe_trans (reg : ProgramRegistry) (p q r : String)
    (h1 : pidLe reg p q = true) (h2 : pidLe reg q r = true) :
    pidLe reg p r = true := by
  rcases (pidLe_iff reg p q).mp h1 with ha | ⟨ha, hsa⟩
  · rcases (pidLe_iff reg q r).mp h2 with hb | ⟨hb, _⟩
    · exact (pidLe_iff reg p r).mpr (Or.inl (Nat.lt_trans hb ha))
    · exact (pidLe_iff reg p r).mpr (Or.inl (hb ▸ ha))
  · rcases (pidLe_iff reg q r).mp h2 with hb | ⟨hb, hsb⟩
    · exact (pidLe_iff reg p r).mpr (Or.inl (ha ▸ hb))
    · exact (pidLe_iff reg p r).mpr
        (Or.inr ⟨ha.trans hb, strLe_trans p q r hsa hsb⟩)

theorem insertLe_perm {α : Type} (le : α → α → Bool) (x : α) (l : List α) :
    (insertLe le x l).Perm (x :: l) := by
  induction l with
  | nil => exact List.Perm.refl _
  | cons y ys ih =>
    unfold insertLe
    split
    · exact List.Perm.refl _
    · exact (ih.cons y).trans (List.Perm.swap x y ys)

theorem sortLe_perm {α : Type} (le : α → α → Bool) (l : List α) :
    (sortLe le l).Perm l := by
  induction l with
  | nil => exact List.Perm.refl _
  | cons x xs ih =>
    unfold sortLe
    exact (insertLe_perm le x (sortLe le xs)).trans (ih.cons x)

theorem insertLe_pairwise {α : Type} (le : α → α → Bool)
    (total : ∀ a b, le a b = true ∨ le b a = true)
    (trans : ∀ a b c, le a b = true → le b c = true → le a c = true)
    (x : α) (l : List α) (h : l.Pairwise (fun a b => le a b = true)) :
    (insertLe le x l).Pairwise (fun a b => le a b = true) := by
  induction l with
  | nil => simp [insertLe]
  | cons y ys ih =>
    unfold insertLe
    split
    · rename_i hxy
      refine List.Pairwise.cons ?_ h
      intro z hz
      rcases List.mem_cons.mp hz with e | hm
      · subst e; exact hxy
      · exact trans x y z hxy ((List.pairwise_cons.mp h).1 z hm)
    · rename_i hxy
      have hyx : le y x = true := by
        rcases total x y with h' | h'
        · exact absurd h' hxy
        · exact h'
      refine List.Pairwise.cons ?_ (ih (List.pairwise_cons.mp h).2)
      intro z hz
      have hz' := (insertLe_perm le x ys).mem_iff.mp hz
      rcases List.mem_cons.mp hz' with e | hm
      · subst e; exact hyx
      · exact (List.pairwise_cons.mp h).1 z hm

theorem sortLe_pairwise {α : Type} (le : α → α → Bool)
    (total : ∀ a b, le a b = true ∨ le b a = true)
    (trans : ∀ a b c, le a b = true → le b c = true → le a c = true)
    (l : List α) :
    (sortLe le l).Pairwise (fun a b => le a b = true) := by
  induction l with
  | nil => simp [sortLe]
  | cons x xs ih =>
    unfold sortLe
    exact insertLe_pairwise le total trans x (sortLe le xs) ih

theorem sortLe_head_le {α : Type} (le : α → α → Bool)
    (total : ∀ a b, le a b = true ∨ le b a = true)
    (trans : ∀ a b c, le a b = true → le b c = true → le a c = true)
    (l : List α) (h : α) (tl : List α) (hs : sortLe le l = h :: tl)
    (x : α) (hx : x ∈ l) : le h x = true := by
  have hperm := sortLe_perm le l
  have hxs : x ∈ sortLe le l := hperm.mem_iff.mpr hx
  rw [hs] at hxs
  rcases List.mem_cons.mp hxs with e | hm
  · subst e
    rcases total x x with h' | h' <;> exact h'
  · have hp := sortLe_pairwise le total trans l
    rw [hs] at hp
    exact (List.pairwise_cons.mp hp).1 x hm

/-! Lemmas about the fuzzy groups. -/

theorem groupsFlat_addToGroups (gs : List ((String × String) × List String))
    (k : String × String) (pid : String) :
    (groupsFlat (addToGroups gs k pid)).Perm (groupsFlat gs ++ [pid]) := by
  induction gs with
  | nil => simp [addToGroups, groupsFlat]
  | cons g rest ih =>
    unfold addToGroups
    split
    · simp only [groupsFlat, List.flatMap_cons]
      rw [List.append_assoc, List.append_assoc]
      exact List.Perm.append_left g.2 (List.perm_append_comm)
    · simp only [groupsFlat, List.flatMap_cons] at ih ⊢
      rw [List.append_assoc]
      refine (List.Perm.append_left g.2 ih).trans ?_
      rw [← List.append_assoc]

theorem groupsFlat_fuzzyGroups (progs : List (String × ProgMeta)) :
    (groupsFlat (fuzzyGroups progs)).Perm (dkeys progs) := by
  suffices h : ∀ (ps : List (String × ProgMeta))
      (gs : List ((String × String) × List String)),
      (groupsFlat (ps.foldl
        (fun gs pm =>
          addToGroups gs
            (_normalize_fuzzy pm.2.agency, _normalize_fuzzy pm.2.canonical_name)
            pm.1)
        gs)).Perm (groupsFlat gs ++ dkeys ps) by
    simpa [fuzzyGroups, groupsFlat] using h progs []
  intro ps
  induction ps with
  | nil => intro gs; simp [dkeys]
  | cons pm rest ih =>
    intro gs
    rw [List.foldl_cons]
    refine (ih _).trans ?_
    have h1 := groupsFlat_addToGroups gs
      (_normalize_fuzzy pm.2.agency, _normalize_fuzzy pm.2.canonical_name) pm.1
    refine (h1.append_right (dkeys rest)).trans ?_
    rw [List.append_assoc, List.singleton_append]
    rfl

theorem fuzzyGroups_nodup_flat (progs : List (String × ProgMeta))
    (h : NodupKeys progs) : (groupsFlat (fuzzyGroups progs)).Nodup :=
  (groupsFlat_fuzzyGroups progs).nodup_iff.mpr h

theorem mem_group_mem_keys (progs : List (String × ProgMeta))
    (g : (String × String) × List String) (hg : g ∈ fuzzyGroups progs)
    (p : String) (hp : p ∈ g.2) : p ∈ dkeys progs :=
  (groupsFlat_fuzzyGroups progs).mem_iff.mp
    (List.mem_flatMap.mpr ⟨g, hg, hp⟩)

/-- Splitting the group list at one group: the group's pid list is
    duplicate-free and disjoint from every other group. -/
theorem split_group_facts (progs : List (String × ProgMeta))
    (hnd : NodupKeys progs) (pre post : List ((String × String) × List String))
    (g : (String × String) × List String)
    (hsplit : fuzzyGroups progs = pre ++ g :: post) :
    g.2.Nodup ∧
    (∀ g' ∈ pre, ∀ p ∈ g.2, p ∉ g'.2) ∧
    (∀ g' ∈ post, ∀ p ∈ g.2, p ∉ g'.2) := by
  have hflat := fuzzyGroups_nodup_flat progs hnd
  rw [hsplit] at hflat
  rw [show groupsFlat (pre ++ g :: post) =
      groupsFlat pre ++ (g.2 ++ groupsFlat post) from by
    simp [groupsFlat]] at hflat
  obtain ⟨h1, h2, hdisj⟩ := List.nodup_append.mp hflat
  obtain ⟨hg2, hpost, hdisj2⟩ := List.nodup_append.mp h2
  refine ⟨hg2, ?_, ?_⟩
  · intro g' hg' p hp hpg'
    exact hdisj (List.mem_flatMap.mpr ⟨g', hg', hpg'⟩)
      (List.mem_append_left _ hp)
  · intro g' hg' p hp hpg'
    exact hdisj2 hp (List.mem_flatMap.mpr ⟨g', hg', hpg'⟩)

/-! Lemmas about `processGroup`. -/

theorem processGroup_prog_frame (σ : Option SubsidyRates) (τ : ℚ)
    (st : ProgramRegistry × Nat × Nat) (g : (String × String) × List String)
    (q : String) (hq : q ∉ g.2) :
    dget (processGroup σ τ st g).1.programs q = dget st.1.programs q := by
  unfold processGroup
  split
  · rfl
  · split
    · rfl
    · rename_i target rest hsort
      have hperm : (target :: rest).Perm g.2 := by
        rw [← hsort]; exact sortLe_perm _ _
      have hT : target ∈ g.2 := hperm.mem_iff.mp (List.mem_cons_self _ _)
      exact foldMerge_prog_frame σ τ target rest st q
        (fun e => hq (e ▸ hT))
        (fun s hs e => hq (e ▸ hperm.mem_iff.mp (List.mem_cons_of_mem _ hs)))

theorem processGroup_prog_absent (σ : Option SubsidyRates) (τ : ℚ)
    (st : ProgramRegistry × Nat × Nat) (g : (String × String) × List String)
    (q : String) (hq : dget st.1.programs q = none) :
    dget (processGroup σ τ st g).1.programs q = none := by
  unfold processGroup
  split
  · exact hq
  · split
    · exact hq
    · rename_i target rest hsort
      exact foldMerge_prog_absent σ τ target rest st q hq

theorem processGroup_key_some (σ : Option SubsidyRates) (τ : ℚ)
    (st : ProgramRegistry × Nat × Nat) (g : (String × String) × List String)
    (k q : String) (hq : q ∉ g.2)
    (hk : dget st.1.key_to_id k = some q) :
    dget (processGroup σ τ st g).1.key_to_id k = some q := by
  unfold processGroup
  split
  · exact hk
  · split
    · exact hk
    · rename_i target rest hsort
      have hperm : (target :: rest).Perm g.2 := by
        rw [← hsort]; exact sortLe_perm _ _
      exact foldMerge_key_some σ τ target rest st k q
        (fun s hs e => hq (e ▸ hperm.mem_iff.mp (List.mem_cons_of_mem _ hs))) hk

theorem processGroup_key_none (σ : Option SubsidyRates) (τ : ℚ)
    (st : ProgramRegistry × Nat × Nat) (g : (String × String) × List String)
    (k : String) (hk : dget st.1.key_to_id k = none) :
    dget (processGroup σ τ st g).1.key_to_id k = none := by
  unfold processGroup
  split
  · exact hk
  · split
    · exact hk
    · rename_i target rest hsort
      exact foldMerge_key_none σ τ target rest st k hk

theorem processGroup_keysLive (σ : Option SubsidyRates) (τ : ℚ)
    (st : ProgramRegistry × Nat × Nat) (g : (String × String) × List String)
    (hnd2 : g.2.Nodup) (hl : keysLive st.1) (hndp : NodupKeys st.1.programs) :
    keysLive (processGroup σ τ st g).1 ∧
      NodupKeys (processGroup σ τ st g).1.programs := by
  unfold processGroup
  split
  · exact ⟨hl, hndp⟩
  · split
    · exact ⟨hl, hndp⟩
    · rename_i target rest hsort
      have hperm : (target :: rest).Perm g.2 := by
        rw [← hsort]; exact sortLe_perm _ _
      have hnodup : (target :: rest).Nodup := hperm.nodup_iff.mpr hnd2
      have htne : ∀ s ∈ rest, s ≠ target :=
        fun s hs e => (List.nodup_cons.mp hnodup).1 (e ▸ hs)
      exact foldMerge_keysLive σ τ target rest st htne hl hndp

theorem processGroup_blocked_mono (σ : Option SubsidyRates) (τ : ℚ)
    (st : ProgramRegistry × Nat × Nat) (g : (String × String) × List String) :
    st.2.2 ≤ (processGroup σ τ st g).2.2 := by
  unfold processGroup
  split
  · exact le_refl _
  · split
    · exact le_refl _
    · rename_i target rest hsort
      exact foldMerge_blocked_mono σ τ target rest st

/-! Lemmas about the fold of `processGroup` over a list of groups. -/

theorem foldGroups_prog_frame (σ : Option SubsidyRates) (τ : ℚ) :
    ∀ (gs : List ((String × String) × List String))
      (st : ProgramRegistry × Nat × Nat) (q : String),
      (∀ g ∈ gs, q ∉ g.2) →
      dget (gs.foldl (processGroup σ τ) st).1.programs q =
        dget st.1.programs q := by
  intro gs
  induction gs with
  | nil => intro st q _; rfl
  | cons g rest ih =>
    intro st q hq
    rw [List.foldl_cons,
        ih (processGroup σ τ st g) q (fun g' hg' => hq g' (List.mem_cons_of_mem _ hg'))]
    exact processGroup_prog_frame σ τ st g q (hq g (List.mem_cons_self _ _))

theorem foldGroups_prog_absent (σ : Option SubsidyRates) (τ : ℚ) :
    ∀ (gs : List ((String × String) × List String))
      (st : ProgramRegistry × Nat × Nat) (q : String),
      dget st.1.programs q = none →
      dget (gs.foldl (processGroup σ τ) st).1.programs q = none := by
  intro gs
  induction gs with
  | nil => intro st q hq; exact hq
  | cons g rest ih =>
    intro st q hq
    rw [List.foldl_cons]
    exact ih (processGroup σ τ st g) q (processGroup_prog_absent σ τ st g q hq)

theorem foldGroups_key_some (σ : Option SubsidyRates) (τ : ℚ) :
    ∀ (gs : List ((String × String) × List String))
      (st : ProgramRegistry × Nat × Nat) (k q : String),
      (∀ g ∈ gs, q ∉ g.2) →
      dget st.1.key_to_id k = some q →
      dget (gs.foldl (processGroup σ τ) st).1.key_to_id k = some q := by
  intro gs
  induction gs with
  | nil => intro st k q _ hk; exact hk
  | cons g rest ih =>
    intro st k q hq hk
    rw [List.foldl_cons]
    exact ih (processGroup σ τ st g) k q
      (fun g' hg' => hq g' (List.mem_cons_of_mem _ hg'))
      (processGroup_key_some σ τ st g k q (hq g (List.mem_cons_self _ _)) hk)

theorem foldGroups_key_none (σ : Option SubsidyRates) (τ : ℚ) :
    ∀ (gs : List ((String × String) × List String))
      (st : ProgramRegistry × Nat × Nat) (k : String),
      dget st.1.key_to_id k = none →
      dget (gs.foldl (processGroup σ τ) st).1.key_to_id k = none := by
  intro gs
  induction gs with
  | nil => intro st k hk; exact hk
  | cons g rest ih =>
    intro st k hk
    rw [List.foldl_cons]
    exact ih (processGroup σ τ st g) k (processGroup_key_none σ τ st g k hk)

theorem foldGroups_keysLive (σ : Option SubsidyRates) (τ : ℚ) :
    ∀ (gs : List ((String × String) × List String))
      (st : ProgramRegistry × Nat × Nat),
      (∀ g ∈ gs, g.2.Nodup) →
      keysLive st.1 → NodupKeys st.1.programs →
      keysLive (gs.foldl (processGroup σ τ) st).1 ∧
        NodupKeys (gs.foldl (processGroup σ τ) st).1.programs := by
  intro gs
  induction gs with
  | nil => intro st _ hl hnd; exact ⟨hl, hnd⟩
  | cons g rest ih =>
    intro st hnd2 hl hnd
    rw [List.foldl_cons]
    obtain ⟨hl', hnd'⟩ := processGroup_keysLive σ τ st g
      (hnd2 g (List.mem_cons_self _ _)) hl hnd
    exact ih (processGroup σ τ st g)
      (fun g' hg' => hnd2 g' (List.mem_cons_of_mem _ hg')) hl' hnd'

theorem foldGroups_blocked_mono (σ : Option SubsidyRates) (τ : ℚ) :
    ∀ (gs : List ((String × String) × List String))
      (st : ProgramRegistry × Nat × Nat),
      st.2.2 ≤ (gs.foldl (processGroup σ τ) st).2.2 := by
  intro gs
  induction gs with
  | nil => intro st; exact le_refl _
  | cons g rest ih =>
    intro st
    rw [List.foldl_cons]
    exact le_trans (processGroup_blocked_mono σ τ st g) (ih (processGroup σ τ st g))


/-! Preservation of the registry invariants through `register`. -/

theorem dget_dset_cases {κ α : Type} [DecidableEq κ] (d : List (κ × α))
    (k k' : κ) (v q : α) (h : dget (dset d k v) k' = some q) :
    q = v ∨ dget d k' = some q := by
  by_cases hk : k' = k
  · subst hk
    rw [dget_dset_self] at h
    exact Or.inl (Option.some.inj h).symm
  · rw [dget_dset_ne _ _ _ _ hk] at h
    exact Or.inr h

theorem dget_dset_isSome {κ α : Type} [DecidableEq κ] (d : List (κ × α))
    (k k' : κ) (v : α) (h : (dget d k').isSome) :
    (dget (dset d k v) k').isSome := by
  by_cases hk : k' = k
  · subst hk; simp [dget_dset_self]
  · rw [dget_dset_ne _ _ _ _ hk]; exact h

theorem register_preserves (reg : ProgramRegistry) (a b c p : String)
    (y : Option Int) (hl : keysLive reg) (hnd : NodupKeys reg.programs) :
    keysLive (register reg a b c p y).2 ∧
      NodupKeys (register reg a b c p y).2.programs := by
  simp only [register]
  cases hres : dget reg.key_to_id (_apply_aliases (normalize_program_key a b c p)) with
  | some pid =>
    cases hp : dget reg.programs pid with
    | some meta =>
      simp only [hres, hp]
      refine ⟨?_, NodupKeys_dset _ _ _ hnd⟩
      intro k q hk
      by_cases hq : q = pid
      · subst hq
        show (dget (dset reg.programs q _) q).isSome
        simp [dget_dset_self]
      · show (dget (dset reg.programs pid _) q).isSome
        rw [dget_dset_ne _ _ _ _ hq]
        exact hl k q hk
    | none =>
      simp only [hres, hp]
      exact ⟨hl, hnd⟩
  | none =>
    cases hraw : (if normalize_program_key a b c p ≠
        _apply_aliases (normalize_program_key a b c p) then
        dget reg.key_to_id (normalize_program_key a b c p) else none) with
    | some pid =>
      have hrawlook : dget reg.key_to_id (normalize_program_key a b c p) = some pid := by
        by_cases hne : normalize_program_key a b c p ≠
            _apply_aliases (normalize_program_key a b c p)
        · rwa [if_pos hne] at hraw
        · rw [if_neg hne] at hraw; exact absurd hraw (by simp)
      simp only [hres, hraw]
      cases hp : dget reg.programs pid with
      | some meta =>
        simp only [hp]
        refine ⟨?_, NodupKeys_dset _ _ _ hnd⟩
        intro k q hk
        by_cases hq : q = pid
        · subst hq
          show (dget (dset reg.programs q _) q).isSome
          simp [dget_dset_self]
        · show (dget (dset reg.programs pid _) q).isSome
          rw [dget_dset_ne _ _ _ _ hq]
          rcases dget_dset_cases _ _ _ _ _ hk with e | hk2
          · exact absurd e hq
          · exact hl k q hk2
      | none =>
        simp only [hp]
        refine ⟨?_, hnd⟩
        intro k q hk
        rcases dget_dset_cases _ _ _ _ _ hk with e | hk2
        · subst e; exact hl _ _ hrawlook
        · exact hl k q hk2
    | none =>
      simp only [hres, hraw]
      refine ⟨?_, NodupKeys_dset _ _ _ hnd⟩
      intro k q hk
      rcases dget_dset_cases _ _ _ _ _ hk with e | hk2
      · subst e; simp [dget_dset_self]
      · rcases dget_dset_cases _ _ _ _ _ hk2 with e | hk3
        · subst e; simp [dget_dset_self]
        · exact dget_dset_isSome _ _ _ _ (hl k q hk3)

theorem applyRegisters_invariant (ops : List RegisterArgs) :
    keysLive (applyRegisters ops) ∧ NodupKeys (applyRegisters ops).programs := by
  suffices h : ∀ (os : List RegisterArgs) (reg : ProgramRegistry),
      keysLive reg → NodupKeys reg.programs →
      keysLive (os.foldl
        (fun r x => (register r x.agency x.bureau x.account x.program x.budget_year).2)
        reg) ∧
      NodupKeys (os.foldl
        (fun r x => (register r x.agency x.bureau x.account x.program x.budget_year).2)
        reg).programs by
    refine h ops emptyRegistry ?_ ?_
    · intro k q hk; simp [emptyRegistry, dget] at hk
    · exact List.nodup_nil
  intro os
  induction os with
  | nil => intro reg hl hnd; exact ⟨hl, hnd⟩
  | cons x rest ih =>
    intro reg hl hnd
    rw [List.foldl_cons]
    obtain ⟨hl', hnd'⟩ := register_preserves reg x.agency x.bureau x.account
      x.program x.budget_year hl hnd
    exact ih _ hl' hnd'

theorem group_nodup (progs : List (String × ProgMeta)) (hnd : NodupKeys progs)
    (g : (String × String) × List String) (hg : g ∈ fuzzyGroups progs) :
    g.2.Nodup := by
  obtain ⟨pre, post, hsplit⟩ := List.append_of_mem hg
  exact (split_group_facts progs hnd pre post g hsplit).1

theorem reconcile_keysLive (reg : ProgramRegistry) (σ : Option SubsidyRates)
    (τ : ℚ) (hl : keysLive reg) (hnd : NodupKeys reg.programs) :
    keysLive (reconcile reg σ τ).1 ∧
      NodupKeys (reconcile reg σ τ).1.programs := by
  have hgs : ∀ g ∈ fuzzyGroups reg.programs, g.2.Nodup :=
    fun g hg => group_nodup reg.programs hnd g hg
  exact foldGroups_keysLive σ τ (fuzzyGroups reg.programs) (reg, 0, 0) hgs hl hnd

/-- C1: after any sequence of `register` calls, optionally followed by a
    `reconcile`, every canonical key stored in `key_to_id` (raw and
    alias-resolved, including the keys of identities absorbed by a merge)
    resolves to a program id that is present in the programs dict: no key
    ever points at a deleted identity. -/
theorem c1_keys_never_dangle (ops : List RegisterArgs)
    (σ : Option SubsidyRates) (τ : ℚ) :
    keysLive (applyRegisters ops) ∧
      keysLive (reconcile (applyRegisters ops) σ τ).1 := by
  obtain ⟨hl, hnd⟩ := applyRegisters_invariant ops
  exact ⟨hl, (reconcile_keysLive (applyRegisters ops) σ τ hl hnd).1⟩

/-! Behaviour of `reconcile` on one whole group. -/

theorem mergeStep_blocked_none (τ : ℚ) (t : String)
    (st : ProgramRegistry × Nat × Nat) (s : String) :
    (mergeStep none τ t st s).2.2 = st.2.2 := by
  simp [mergeStep, _rates_consistent]

theorem foldMerge_blocked_none (τ : ℚ) (t : String) :
    ∀ (sources : List String) (st : ProgramRegistry × Nat × Nat),
      (sources.foldl (mergeStep none τ t) st).2.2 = st.2.2 := by
  intro sources
  induction sources with
  | nil => intro st; rfl
  | cons s rest ih =>
    intro st
    rw [List.foldl_cons, ih (mergeStep none τ t st s),
        mergeStep_blocked_none τ t st s]

theorem processGroup_blocked_none (τ : ℚ) (st : ProgramRegistry × Nat × Nat)
    (g : (String × String) × List String) :
    (processGroup none τ st g).2.2 = st.2.2 := by
  unfold processGroup
  split
  · rfl
  · split
    · rfl
    · exact foldMerge_blocked_none τ _ _ st

theorem foldGroups_blocked_none (τ : ℚ) :
    ∀ (gs : List ((String × String) × List String))
      (st : ProgramRegistry × Nat × Nat),
      (gs.foldl (processGroup none τ) st).2.2 = st.2.2 := by
  intro gs
  induction gs with
  | nil => intro st; rfl
  | cons g rest ih =>
    intro st
    rw [List.foldl_cons, ih (processGroup none τ st g),
        processGroup_blocked_none τ st g]

/-- A two-member group whose rates are inconsistent in both orders leaves the
    registry untouched and counts one blocked pair. -/
theorem processGroup_blocked_pair (σ : Option SubsidyRates) (τ : ℚ)
    (st : ProgramRegistry × Nat × Nat) (g : (String × String) × List String)
    (p1 p2 : String) (hpair : g.2 = [p1, p2])
    (h12 : _rates_consistent p1 p2 σ τ = false)
    (h21 : _rates_consistent p2 p1 σ τ = false) :
    processGroup σ τ st g = (st.1, st.2.1, st.2.2 + 1) := by
  unfold processGroup
  rw [hpair]
  rw [if_neg (by simp : ¬ [p1, p2].length < 2)]
  have hs : sortLe (pidLe st.1) [p1, p2] =
      if pidLe st.1 p1 p2 then [p1, p2] else [p2, p1] := by
    simp [sortLe, insertLe]
  by_cases hle : pidLe st.1 p1 p2 = true
  · rw [hs, if_pos hle]
    show [p2].foldl (mergeStep σ τ p1) st = (st.1, st.2.1, st.2.2 + 1)
    simp [mergeStep, h12]
  · rw [hs, if_neg hle]
    show [p1].foldl (mergeStep σ τ p2) st = (st.1, st.2.1, st.2.2 + 1)
    simp [mergeStep, h21]

/-- `get_id` keeps resolving to `p` whenever the whole key map is preserved
    on the keys that mention `p` and on the absent keys. -/
theorem get_id_preserved (reg regn : ProgramRegistry) (p : String)
    (hsome : ∀ k, dget reg.key_to_id k = some p → dget regn.key_to_id k = some p)
    (hnone : ∀ k, dget reg.key_to_id k = none → dget regn.key_to_id k = none)
    (a b c n : String) (h : get_id reg a b c n = some p) :
    get_id regn a b c n = some p := by
  simp only [get_id] at h ⊢
  cases hres : dget reg.key_to_id (_apply_aliases (normalize_program_key a b c n)) with
  | some q =>
    simp only [hres] at h
    have hq := Option.some.inj h
    subst hq
    rw [hsome _ hres]
  | none =>
    simp only [hres] at h
    rw [hnone _ hres]
    exact hsome _ h

/-- Outcome of `reconcile` on one fuzzy group whose members are pairwise
    rate-consistent: the group collapses onto the member that is least in the
    sort order (most budget years, then smallest id); every other member is
    deleted, and every key that pointed into the group now points at the
    survivor. -/
theorem reconcile_group_outcome (σ : Option SubsidyRates) (τ : ℚ)
    (reg : ProgramRegistry) (hl : keysLive reg) (hnd : NodupKeys reg.programs)
    (g : (String × String) × List String) (hg : g ∈ fuzzyGroups reg.programs)
    (hlen : 2 ≤ g.2.length)
    (hcons : ∀ t ∈ g.2, ∀ s ∈ g.2, _rates_consistent t s σ τ = true) :
    ∃ t ∈ g.2,
      (∀ p ∈ g.2, pidLe reg t p = true) ∧
      (dget (reconcile reg σ τ).1.programs t).isSome ∧
      (∀ p ∈ g.2, p ≠ t → dget (reconcile reg σ τ).1.programs p = none) ∧
      (∀ k p, dget reg.key_to_id k = some p → p ∈ g.2 →
        dget (reconcile reg σ τ).1.key_to_id k = some t) := by
  obtain ⟨pre, post, hsplit⟩ := List.append_of_mem hg
  obtain ⟨hgnd, hdisjpre, hdisjpost⟩ := split_group_facts reg.programs hnd pre post g hsplit
  have hpre_sub : ∀ gp ∈ pre, gp ∈ fuzzyGroups reg.programs := by
    intro gp hp; rw [hsplit]; exact List.mem_append_left _ hp
  set st1 := pre.foldl (processGroup σ τ) (reg, (0 : Nat), (0 : Nat)) with hst1
  have hinv1 : keysLive st1.1 ∧ NodupKeys st1.1.programs :=
    foldGroups_keysLive σ τ pre (reg, 0, 0)
      (fun gp hp => group_nodup _ hnd gp (hpre_sub gp hp)) hl hnd
  have hframe1 : ∀ p ∈ g.2, dget st1.1.programs p = dget reg.programs p := by
    intro p hp
    exact foldGroups_prog_frame σ τ pre (reg, 0, 0) p
      (fun gp hp2 => hdisjpre gp hp2 p hp)
  have hlive1 : ∀ p ∈ g.2, (dget st1.1.programs p).isSome := by
    intro p hp
    rw [hframe1 p hp]
    exact (dget_isSome_iff _ _).mpr (mem_group_mem_keys reg.programs g hg p hp)
  have hyears : ∀ p ∈ g.2, yearsLen st1.1 p = yearsLen reg p := by
    intro p hp
    unfold yearsLen
    rw [hframe1 p hp]
  cases hsort : sortLe (pidLe st1.1) g.2 with
  | nil =>
    exfalso
    have hperm := sortLe_perm (pidLe st1.1) g.2
    rw [hsort] at hperm
    have hlen0 : ([] : List String).length = g.2.length := hperm.length_eq
    simp only [List.length_nil] at hlen0
    omega
  | cons target rest =>
    have hperm : (target :: rest).Perm g.2 := by
      rw [← hsort]; exact sortLe_perm _ _
    have htmem : target ∈ g.2 := hperm.mem_iff.mp (List.mem_cons_self _ _)
    have hrestmem : ∀ s ∈ rest, s ∈ g.2 :=
      fun s hs => hperm.mem_iff.mp (List.mem_cons_of_mem _ hs)
    have hsortnd : (target :: rest).Nodup := hperm.nodup_iff.mpr hgnd
    have hrest_nd : rest.Nodup := (List.nodup_cons.mp hsortnd).2
    have hrest_ne_t : ∀ s ∈ rest, s ≠ target :=
      fun s hs e => (List.nodup_cons.mp hsortnd).1 (e ▸ hs)
    have hmin : ∀ p ∈ g.2, pidLe reg target p = true := by
      intro p hp
      have hh := sortLe_head_le (pidLe st1.1) (pidLe_total st1.1)
        (pidLe_trans st1.1) g.2 target rest hsort p hp
      rw [pidLe, hyears target htmem, hyears p hp] at hh
      rw [pidLe]
      exact hh
    obtain ⟨hT, hSrc, _, hKeys, _, _, _⟩ :=
      foldMerge_all_consistent σ τ target rest st1 hrest_nd hrest_ne_t
        (fun s hs => hcons target htmem s (hrestmem s hs))
        (fun s hs => hlive1 s (hrestmem s hs)) (hlive1 target htmem) hinv1.2
    have hpg : processGroup σ τ st1 g = rest.foldl (mergeStep σ τ target) st1 := by
      unfold processGroup
      rw [if_neg (by omega : ¬ g.2.length < 2), hsort]
    set st2 := rest.foldl (mergeStep σ τ target) st1 with hst2
    have hdisj_post : ∀ gp ∈ post, target ∉ gp.2 :=
      fun gp hp => hdisjpost gp hp target htmem
    have hfinal : (reconcile reg σ τ).1 = (post.foldl (processGroup σ τ) st2).1 := by
      show ((fuzzyGroups reg.programs).foldl (processGroup σ τ) (reg, 0, 0)).1 = _
      rw [hsplit, List.foldl_append, List.foldl_cons, ← hst1, hpg]
    refine ⟨target, htmem, hmin, ?_, ?_, ?_⟩
    · rw [hfinal,
          foldGroups_prog_frame σ τ post st2 target (fun gp hp => hdisj_post gp hp)]
      exact hT
    · intro p hp hpt
      rw [hfinal]
      have hprest : p ∈ rest := by
        rcases List.mem_cons.mp (hperm.mem_iff.mpr hp) with e | hm
        · exact absurd e hpt
        · exact hm
      exact foldGroups_prog_absent σ τ post st2 p (hSrc p hprest)
    · intro k p hk hp
      rw [hfinal]
      have hk1 : dget st1.1.key_to_id k = some p :=
        foldGroups_key_some σ τ pre (reg, 0, 0) k p
          (fun gp hp2 => hdisjpre gp hp2 p hp) hk
      have hk2 : dget st2.1.key_to_id k = some target := by
        rw [hKeys k, hk1]
        rcases List.mem_cons.mp (hperm.mem_iff.mpr hp) with e | hm
        · subst e
          have : p ∉ rest := fun hm => (hrest_ne_t p hm) rfl
          simp [this]
        · simp [hm]
      exact foldGroups_key_some σ τ post st2 k target
        (fun gp hp2 => hdisj_post gp hp2) hk2

/-- C10: calling `reconcile` with `subsidy_rates = None` makes the
    rate-consistency guard accept every candidate pair: the returned
    blocked_by_rates count is 0 and every fuzzy group with at least two
    members collapses onto a single surviving identity, every other member
    being deleted from the programs dict. -/
theorem c10_reconcile_without_rates (ops : List RegisterArgs) (τ : ℚ) :
    (reconcile (applyRegisters ops) none τ).2.blocked_by_rates = 0 ∧
    ∀ g ∈ fuzzyGroups (applyRegisters ops).programs, 2 ≤ g.2.length →
      ∃ t ∈ g.2,
        (dget (reconcile (applyRegisters ops) none τ).1.programs t).isSome ∧
        ∀ p ∈ g.2, p ≠ t →
          dget (reconcile (applyRegisters ops) none τ).1.programs p = none := by
  constructor
  · show ((fuzzyGroups (applyRegisters ops).programs).foldl
      (processGroup none τ) ((applyRegisters ops), 0, 0)).2.2 = 0
    rw [foldGroups_blocked_none]
  · intro g hg hlen
    obtain ⟨hl, hnd⟩ := applyRegisters_invariant ops
    obtain ⟨t, ht, _, hsurv, hdel, _⟩ :=
      reconcile_group_outcome none τ (applyRegisters ops) hl hnd g hg hlen
        (fun _ _ _ _ => rfl)
    exact ⟨t, ht, hsurv, hdel⟩

theorem c10_reconcile_without_rates_witness :
    (reconcile (applyRegisters demoOps) none 1).2.blocked_by_rates = 0 ∧
    ∃ t ∈ demoGroup.2,
      (dget (reconcile (applyRegisters demoOps) none 1).1.programs t).isSome ∧
      ∀ p ∈ demoGroup.2, p ≠ t →
        dget (reconcile (applyRegisters demoOps) none 1).1.programs p = none :=
  ⟨(c10_reconcile_without_rates demoOps 1).1,
   (c10_reconcile_without_rates demoOps 1).2 demoGroup (by decide) (by decide)⟩

/-- C2: a fuzzy group of two or more registered identities whose members are
    pairwise rate-consistent is merged into a single survivor, chosen as the
    member with the most distinct budget years seen (smallest program id
    breaking ties); afterwards every stored key that resolved to any group
    member resolves to the survivor's id. -/
theorem c2_consistent_group_merges (ops : List RegisterArgs)
    (σ : Option SubsidyRates) (τ : ℚ) (g : (String × String) × List String)
    (hg : g ∈ fuzzyGroups (applyRegisters ops).programs)
    (hlen : 2 ≤ g.2.length)
    (hcons : ∀ t ∈ g.2, ∀ s ∈ g.2, _rates_consistent t s σ τ = true) :
    ∃ t ∈ g.2,
      (∀ p ∈ g.2, p ≠ t →
        yearsLen (applyRegisters ops) p < yearsLen (applyRegisters ops) t ∨
          (yearsLen (applyRegisters ops) p = yearsLen (applyRegisters ops) t ∧
            strLe t p = true)) ∧
      (dget (reconcile (applyRegisters ops) σ τ).1.programs t).isSome ∧
      (∀ p ∈ g.2, p ≠ t →
        dget (reconcile (applyRegisters ops) σ τ).1.programs p = none) ∧
      (∀ k p, dget (applyRegisters ops).key_to_id k = some p → p ∈ g.2 →
        dget (reconcile (applyRegisters ops) σ τ).1.key_to_id k = some t) := by
  obtain ⟨hl, hnd⟩ := applyRegisters_invariant ops
  obtain ⟨t, ht, hmin, hsurv, hdel, hkeys⟩ :=
    reconcile_group_outcome σ τ (applyRegisters ops) hl hnd g hg hlen hcons
  refine ⟨t, ht, ?_, hsurv, hdel, hkeys⟩
  intro p hp _
  rcases (pidLe_iff (applyRegisters ops) t p).mp (hmin p hp) with h | ⟨h1, h2⟩
  · exact Or.inl h
  · exact Or.inr ⟨h1.symm, h2⟩

theorem c2_consistent_group_merges_witness :
    ∃ t ∈ demoGroup.2,
      (∀ p ∈ demoGroup.2, p ≠ t →
        yearsLen (applyRegisters demoOps) p < yearsLen (applyRegisters demoOps) t ∨
          (yearsLen (applyRegisters demoOps) p = yearsLen (applyRegisters demoOps) t ∧
            strLe t p = true)) ∧
      (dget (reconcile (applyRegisters demoOps) (some demoRatesOk)
        (Rat.divInt 1 2)).1.programs t).isSome ∧
      (∀ p ∈ demoGroup.2, p ≠ t →
        dget (reconcile (applyRegisters demoOps) (some demoRatesOk)
          (Rat.divInt 1 2)).1.programs p = none) ∧
      (∀ k p, dget (applyRegisters demoOps).key_to_id k = some p →
        p ∈ demoGroup.2 →
        dget (reconcile (applyRegisters demoOps) (some demoRatesOk)
          (Rat.divInt 1 2)).1.key_to_id k = some t) :=
  c2_consistent_group_merges demoOps (some demoRatesOk) (Rat.divInt 1 2)
    demoGroup (by decide) (by decide) (by decide)

/-- C3: a two-member fuzzy group whose subsidy-rate observations share a
    cohort year and disagree beyond the tolerance (so the consistency check
    fails in both comparison orders) is not merged: both identities keep
    their exact metadata and stay in the programs dict, `get_id` on any
    tuple that resolved to either id still resolves to the same id (and the
    two ids are distinct), and the pair is counted in blocked_by_rates. -/
theorem c3_blocked_pair_preserved (ops : List RegisterArgs)
    (σ : Option SubsidyRates) (τ : ℚ) (g : (String × String) × List String)
    (p1 p2 : String)
    (hg : g ∈ fuzzyGroups (applyRegisters ops).programs)
    (hpair : g.2 = [p1, p2])
    (h12 : _rates_consistent p1 p2 σ τ = false)
    (h21 : _rates_consistent p2 p1 σ τ = false) :
    p1 ≠ p2 ∧
    dget (reconcile (applyRegisters ops) σ τ).1.programs p1 =
      dget (applyRegisters ops).programs p1 ∧
    dget (reconcile (applyRegisters ops) σ τ).1.programs p2 =
      dget (applyRegisters ops).programs p2 ∧
    (dget (applyRegisters ops).programs p1).isSome ∧
    (dget (applyRegisters ops).programs p2).isSome ∧
    (∀ a b c n, get_id (applyRegisters ops) a b c n = some p1 →
      get_id (reconcile (applyRegisters ops) σ τ).1 a b c n = some p1) ∧
    (∀ a b c n, get_id (applyRegisters ops) a b c n = some p2 →
      get_id (reconcile (applyRegisters ops) σ τ).1 a b c n = some p2) ∧
    1 ≤ (reconcile (applyRegisters ops) σ τ).2.blocked_by_rates := by
  obtain ⟨hl, hnd⟩ := applyRegisters_invariant ops
  obtain ⟨pre, post, hsplit⟩ := List.append_of_mem hg
  obtain ⟨hgnd, hdisjpre, hdisjpost⟩ :=
    split_group_facts (applyRegisters ops).programs hnd pre post g hsplit
  have hp1 : p1 ∈ g.2 := by rw [hpair]; exact List.mem_cons_self _ _
  have hp2 : p2 ∈ g.2 := by
    rw [hpair]; exact List.mem_cons_of_mem _ (List.mem_cons_self _ _)
  have hne : p1 ≠ p2 := by
    rw [hpair] at hgnd
    intro e
    subst e
    simp at hgnd
  set reg := applyRegisters ops with hreg
  set st1 := pre.foldl (processGroup σ τ) (reg, (0 : Nat), (0 : Nat)) with hst1
  have hpgid : processGroup σ τ st1 g = (st1.1, st1.2.1, st1.2.2 + 1) :=
    processGroup_blocked_pair σ τ st1 g p1 p2 hpair h12 h21
  have hfin1 : (reconcile reg σ τ).1 =
      (post.foldl (processGroup σ τ) (st1.1, st1.2.1, st1.2.2 + 1)).1 := by
    show ((fuzzyGroups reg.programs).foldl (processGroup σ τ) (reg, 0, 0)).1 = _
    rw [hsplit, List.foldl_append, List.foldl_cons, ← hst1, hpgid]
  have hframe : ∀ p ∈ g.2,
      dget (reconcile reg σ τ).1.programs p = dget reg.programs p := by
    intro p hp
    rw [hfin1,
        foldGroups_prog_frame σ τ post (st1.1, st1.2.1, st1.2.2 + 1) p
          (fun gp hgp => hdisjpost gp hgp p hp)]
    exact foldGroups_prog_frame σ τ pre (reg, 0, 0) p
      (fun gp hgp => hdisjpre gp hgp p hp)
  have hlive : ∀ p ∈ g.2, (dget reg.programs p).isSome := by
    intro p hp
    exact (dget_isSome_iff _ _).mpr (mem_group_mem_keys reg.programs g hg p hp)
  have hksome : ∀ p ∈ g.2, ∀ k, dget reg.key_to_id k = some p →
      dget (reconcile reg σ τ).1.key_to_id k = some p := by
    intro p hp k hk
    rw [hfin1]
    refine foldGroups_key_some σ τ post (st1.1, st1.2.1, st1.2.2 + 1) k p
      (fun gp hgp => hdisjpost gp hgp p hp) ?_
    show dget st1.1.key_to_id k = some p
    exact foldGroups_key_some σ τ pre (reg, 0, 0) k p
      (fun gp hgp => hdisjpre gp hgp p hp) hk
  have hknone : ∀ k, dget reg.key_to_id k = none →
      dget (reconcile reg σ τ).1.key_to_id k = none := by
    intro k hk
    rw [hfin1]
    refine foldGroups_key_none σ τ post (st1.1, st1.2.1, st1.2.2 + 1) k ?_
    show dget st1.1.key_to_id k = none
    exact foldGroups_key_none σ τ pre (reg, 0, 0) k hk
  refine ⟨hne, hframe p1 hp1, hframe p2 hp2, hlive p1 hp1, hlive p2 hp2,
    ?_, ?_, ?_⟩
  · intro a b c n h
    exact get_id_preserved reg _ p1 (hksome p1 hp1) hknone a b c n h
  · intro a b c n h
    exact get_id_preserved reg _ p2 (hksome p2 hp2) hknone a b c n h
  · have hb : (reconcile reg σ τ).2.blocked_by_rates =
        (post.foldl (processGroup σ τ) (st1.1, st1.2.1, st1.2.2 + 1)).2.2 := by
      show ((fuzzyGroups reg.programs).foldl (processGroup σ τ) (reg, 0, 0)).2.2 = _
      rw [hsplit, List.foldl_append, List.foldl_cons, ← hst1, hpgid]
    rw [hb]
    have hmono : st1.2.2 + 1 ≤
        (post.foldl (processGroup σ τ) (st1.1, st1.2.1, st1.2.2 + 1)).2.2 :=
      foldGroups_blocked_mono σ τ post (st1.1, st1.2.1, st1.2.2 + 1)
    omega

theorem c3_blocked_pair_preserved_witness :
    "P001" ≠ "P002" ∧
    dget (reconcile (applyRegisters demoOps) (some demoRatesBad)
      (Rat.divInt 1 2)).1.programs "P001" =
      dget (applyRegisters demoOps).programs "P001" ∧
    dget (reconcile (applyRegisters demoOps) (some demoRatesBad)
      (Rat.divInt 1 2)).1.programs "P002" =
      dget (applyRegisters demoOps).programs "P002" ∧
    (dget (applyRegisters demoOps).programs "P001").isSome ∧
    (dget (applyRegisters demoOps).programs "P002").isSome ∧
    get_id (reconcile (applyRegisters demoOps) (some demoRatesBad)
      (Rat.divInt 1 2)).1 "Agency A" "" "" "Widget Loans" = some "P001" ∧
    get_id (reconcile (applyRegisters demoOps) (some demoRatesBad)
      (Rat.divInt 1 2)).1 "Agency A" "" "" "Widget Loan" = some "P002" ∧
    1 ≤ (reconcile (applyRegisters demoOps) (some demoRatesBad)
      (Rat.divInt 1 2)).2.blocked_by_rates := by
  obtain ⟨h1, h2, h3, h4, h5, h6, h7, h8⟩ :=
    c3_blocked_pair_preserved demoOps (some demoRatesBad) (Rat.divInt 1 2)
      demoGroup "P001" "P002" (by decide) (by decide) (by decide) (by decide)
  exact ⟨h1, h2, h3, h4, h5, h6 _ _ _ _ (by decide), h7 _ _ _ _ (by decide), h8⟩

end FedCredit
